import Mathlib

/-!
Verification of the property-handling core of the nih-dbus-tool code
generator (src/unnamed/part_001, a copy of property.c, with its test
suite in src/unnamed/part_000).

The development has two layers:

1. a direct shallow embedding of the pure logic of property.c itself:
   the member-name validator, the Property constructor, the XML start
   and end tag handlers, and the prototype (TypeFunc) records built by
   the four generator functions;

2. a semantic model of the C code *emitted* by the four generator
   functions (property_object_get_function, property_object_set_function,
   property_proxy_get_sync_function, property_proxy_set_sync_function).
   The emitted code is assembled from string fragments visible in
   property.c; the marshalling and demarshalling sub-fragments are
   produced by marshal() and demarshal(), whose sources are not part of
   the corpus, so those two fragment families are modelled from the
   specification (sections 4.3 and 4.4), cross-checked against the
   expected generated code captured literally in the test suite.

Out-of-memory behaviour of the emitted code is modelled by an explicit
allocation oracle: a list of booleans consumed left to right, one per
allocating step, where an exhausted list means every further allocation
succeeds.
-/

/-- Access mode of a D-Bus property, as in nih-dbus: NIH_DBUS_READ,
NIH_DBUS_WRITE, NIH_DBUS_READWRITE. -/
inductive NihDBusAccess where
  | read
  | write
  | readwrite
deriving DecidableEq

/-- The Property record of property.h: D-Bus name, optional generated
symbol, D-Bus type signature, access and deprecated flag.  The intrusive
list entry used to chain properties into an interface is represented by
plain list membership in the model. -/
structure Property where
  name : String
  symbol : Option String
  type : String
  access : NihDBusAccess
  deprecated : Bool
deriving DecidableEq

/-- The character loop of property_name_valid (part_001 lines 66-80):
digits are allowed anywhere but position 0, all other characters must be
in A-Z, a-z or be an underscore.  The index argument is the loop
counter i. -/
def property_name_chars_valid : Nat → List Char → Bool
  | _, [] => true
  | i, c :: rest =>
    if ('0' ≤ c && c ≤ '9') then
      if i == 0 then false else property_name_chars_valid (i + 1) rest
    else if ((c < 'A' || 'Z' < c) && (c < 'a' || 'z' < c) && c ≠ '_') then
      false
    else
      property_name_chars_valid (i + 1) rest

/-- property_name_valid (part_001 lines 58-87): the character loop over
the name followed by the length check 1..255. -/
def property_name_valid (name : String) : Bool :=
  property_name_chars_valid 0 name.data
    && decide (1 ≤ name.length) && decide (name.length ≤ 255)

/-- Character class of the first position of the member-name regex:
A-Z, a-z and the underscore. -/
def regexHeadChar (c : Char) : Bool :=
  ('A' ≤ c && c ≤ 'Z') || ('a' ≤ c && c ≤ 'z') || c = '_'

/-- Character class of the later positions of the member-name regex:
A-Z, a-z, digits and the underscore. -/
def regexTailChar (c : Char) : Bool :=
  regexHeadChar c || ('0' ≤ c && c ≤ '9')

/-- The specification side of claim C6: the strings matching the
member-name regex of length 1..255, stated over the character list. -/
def regexNameValid (name : String) : Bool :=
  match name.data with
  | [] => false
  | c :: rest =>
    regexHeadChar c && rest.all regexTailChar && decide (name.length ≤ 255)

theorem not_digit_bad_eq (c : Char) (hd : ('0' ≤ c && c ≤ '9') = false) :
    ((c < 'A' || 'Z' < c) && (c < 'a' || 'z' < c) && c ≠ '_')
      = !regexTailChar c := by
  rw [Bool.eq_iff_iff]
  by_cases h1 : 'A' ≤ c <;> by_cases h2 : c ≤ 'Z' <;>
    by_cases h3 : 'a' ≤ c <;> by_cases h4 : c ≤ 'z' <;> by_cases h5 : c = '_' <;>
      simp [regexTailChar, regexHeadChar, lt_iff_not_le, h1, h2, h3, h4, h5, hd]

theorem digit_not_head (c : Char) (hd : ('0' ≤ c && c ≤ '9') = true) :
    regexHeadChar c = false := by
  simp only [Bool.and_eq_true, decide_eq_true_eq] at hd
  obtain ⟨h0, h9⟩ := hd
  have hA : ¬ 'A' ≤ c := not_le.mpr (lt_of_le_of_lt h9 (by decide))
  have ha : ¬ 'a' ≤ c := not_le.mpr (lt_of_le_of_lt h9 (by decide))
  have hu : c ≠ '_' := by
    intro h
    rw [h] at h9
    exact absurd h9 (by decide)
  simp [regexHeadChar, hA, ha, hu]

theorem chars_valid_pos : ∀ (cs : List Char) (i : Nat), i ≠ 0 →
    property_name_chars_valid i cs = cs.all regexTailChar
  | [], _, _ => rfl
  | c :: rest, i, hi => by
    have hii : (i == 0) = false := by
      cases i with
      | zero => exact absurd rfl hi
      | succ n => rfl
    simp only [property_name_chars_valid, List.all_cons]
    by_cases hd : ('0' ≤ c && c ≤ '9') = true
    · have ht : regexTailChar c = true := by simp [regexTailChar, hd]
      simp only [hd, if_true, hii, Bool.false_eq_true, if_false, ht, Bool.true_and]
      exact chars_valid_pos rest (i + 1) (Nat.succ_ne_zero i)
    · have hd' : ('0' ≤ c && c ≤ '9') = false := by
        simpa using hd
      rw [not_digit_bad_eq c hd']
      by_cases ht : regexTailChar c = true
      · simp only [hd', Bool.false_eq_true, if_false, ht, Bool.not_true, Bool.true_and]
        exact chars_valid_pos rest (i + 1) (Nat.succ_ne_zero i)
      · have ht' : regexTailChar c = false := by simpa using ht
        simp [hd', ht']

theorem chars_valid_zero (c : Char) (rest : List Char) :
    property_name_chars_valid 0 (c :: rest)
      = (regexHeadChar c && rest.all regexTailChar) := by
  simp only [property_name_chars_valid]
  by_cases hd : ('0' ≤ c && c ≤ '9') = true
  · simp [hd, digit_not_head c hd]
  · have hd' : ('0' ≤ c && c ≤ '9') = false := by simpa using hd
    rw [not_digit_bad_eq c hd']
    have hth : regexTailChar c = regexHeadChar c := by
      simp [regexTailChar, hd']
    by_cases hh : regexHeadChar c = true
    · simp only [hd', Bool.false_eq_true, if_false, hth, hh, Bool.not_true,
        Bool.true_and]
      exact chars_valid_pos rest 1 one_ne_zero
    · have hh' : regexHeadChar c = false := by simpa using hh
      simp [hd', hth, hh']

/-- C6: property_name_valid returns true for exactly the strings matching
the regex of a member name, first character in A-Z, a-z or underscore,
later characters additionally digits, of length 1 to 255, and false for
every other string. -/
theorem property_name_valid_eq_regex (name : String) :
    property_name_valid name = regexNameValid name := by
  unfold property_name_valid regexNameValid
  have hlen : name.length = name.data.length := rfl
  match hcs : name.data with
  | [] =>
    have : name.length = 0 := by rw [hlen, hcs]; rfl
    simp [property_name_chars_valid, this]
  | c :: rest =>
    rw [chars_valid_zero]
    have h1 : name.length = rest.length + 1 := by
      rw [hlen, hcs, List.length_cons]
    have hge : decide (1 ≤ name.length) = true := by
      simp [h1]
    rw [hge, Bool.and_true]

/-- property_new (part_001 lines 108-144).  The three allocating steps
are the Property object itself, the copy of the name and the copy of the
type; each consults one oracle boolean.  On any failure the partially
built object is freed and NULL (none) is returned.  The fresh object is
initialised with symbol NULL and deprecated FALSE, and its list entry is
initialised to a free-standing entry, so it is a member of no list. -/
def property_new (a1 a2 a3 : Bool) (name type : String)
    (access : NihDBusAccess) : Option Property :=
  if !a1 then none
  else if !a2 then none
  else if !a3 then none
  else some { name := name, symbol := none, type := type, access := access,
              deprecated := false }

/-- C10: a successful property_new returns a Property whose name and
type equal the given strings, whose access is the given access, whose
symbol is NULL and whose deprecated flag is FALSE; and it returns NULL
exactly when one of its three allocations fails. -/
theorem property_new_spec (a1 a2 a3 : Bool) (name type : String)
    (access : NihDBusAccess) :
    (∀ p, property_new a1 a2 a3 name type access = some p →
        p.name = name ∧ p.type = type ∧ p.access = access ∧
          p.symbol = none ∧ p.deprecated = false) ∧
    (property_new a1 a2 a3 name type access = none ↔ (a1 && a2 && a3) = false) := by
  constructor
  · intro p hp
    cases a1 <;> cases a2 <;> cases a3 <;> simp [property_new] at hp
    simp [← hp]
  · cases a1 <;> cases a2 <;> cases a3 <;> simp [property_new]

/-- Witness for C10 at a concrete input: all three allocations succeed
for name Name and type s with read access. -/
theorem property_new_spec_witness :
    ({ name := "Name", symbol := none, type := "s",
       access := NihDBusAccess.read, deprecated := false } : Property).name = "Name" ∧
      ({ name := "Name", symbol := none, type := "s",
         access := NihDBusAccess.read, deprecated := false } : Property).type = "s" ∧
      ({ name := "Name", symbol := none, type := "s",
         access := NihDBusAccess.read, deprecated := false } : Property).access = NihDBusAccess.read ∧
      ({ name := "Name", symbol := none, type := "s",
         access := NihDBusAccess.read, deprecated := false } : Property).symbol = none ∧
      ({ name := "Name", symbol := none, type := "s",
         access := NihDBusAccess.read, deprecated := false } : Property).deprecated = false :=
  (property_new_spec true true true "Name" "s" NihDBusAccess.read).1
    { name := "Name", symbol := none, type := "s",
      access := NihDBusAccess.read, deprecated := false } (by decide)

/-- The element kinds that appear on the XML parse stack (parse.h).
property_start_tag only distinguishes the interface kind, the ignored
marker and everything else. -/
inductive ParseStackType where
  | node
  | interface
  | method
  | signal
  | argument
  | property
  | ignored
deriving DecidableEq

/-- The errors property_start_tag can raise (errors.h: PROPERTY_MISSING_NAME,
PROPERTY_INVALID_NAME, PROPERTY_MISSING_TYPE, PROPERTY_INVALID_TYPE,
PROPERTY_MISSING_ACCESS, PROPERTY_ILLEGAL_ACCESS). -/
inductive PropertyParseError where
  | missingName
  | invalidName
  | missingType
  | invalidType
  | missingAccess
  | illegalAccess
deriving DecidableEq

/-- Outcome of property_start_tag: a raised error with negative return,
or success having pushed either an Ignored marker or a fresh Property
onto the parse stack. -/
inductive StartTagResult where
  | error (e : PropertyParseError)
  | ignored
  | pushed (p : Property)
deriving DecidableEq

/-- Whether a start tag outcome is a raised error. -/
def StartTagResult.isError : StartTagResult → Bool
  | .error _ => true
  | _ => false

/-- State of the attribute scan loop of property_start_tag (part_001
lines 212-229): the last value seen for each of the recognised keys. -/
structure StartAttrs where
  name : Option String := none
  type : Option String := none
  access : Option String := none
deriving DecidableEq

/-- One step of the attribute scan loop: a name, type or access key
records its value, any other key is warned about and skipped. -/
def scanAttr (st : StartAttrs) (kv : String × String) : StartAttrs :=
  if kv.1 = "name" then { st with name := some kv.2 }
  else if kv.1 = "type" then { st with type := some kv.2 }
  else if kv.1 = "access" then { st with access := some kv.2 }
  else st

/-- The attribute scan loop of property_start_tag over the attribute
pair array. -/
def scanAttrs (attrs : List (String × String)) : StartAttrs :=
  attrs.foldl scanAttr {}

/-- The attribute validation sequence of property_start_tag (part_001
lines 231-277): check name presence and validity, type presence and
validity, access presence and its three legal values, in that order, and
on success build the Property exactly as property_new does with
allocation succeeding.  The check of the type attribute against
dbus_signature_validate_single, an external libdbus collaborator, is
abstracted into the parameter sigValid. -/
def property_start_tag_checks (sigValid : String → Bool) (a : StartAttrs) :
    StartTagResult :=
  match a.name with
    | none => .error .missingName
    | some name =>
      if !property_name_valid name then .error .invalidName
      else match a.type with
      | none => .error .missingType
      | some type =>
        if !sigValid type then .error .invalidType
        else match a.access with
        | none => .error .missingAccess
        | some acc =>
          if acc = "read" then
            .pushed { name := name, symbol := none, type := type,
                      access := .read, deprecated := false }
          else if acc = "write" then
            .pushed { name := name, symbol := none, type := type,
                      access := .write, deprecated := false }
          else if acc = "readwrite" then
            .pushed { name := name, symbol := none, type := type,
                      access := .readwrite, deprecated := false }
          else .error .illegalAccess

/-- property_start_tag (part_001 lines 173-280), with allocation assumed
to succeed (the claim sets allocation failure aside): when the top of
the parse stack is not an interface, warn and push an Ignored marker
without looking at any attribute; otherwise scan the attributes and run
the validation sequence. -/
def property_start_tag (sigValid : String → Bool)
    (stackTop : Option ParseStackType) (attrs : List (String × String)) :
    StartTagResult :=
  match stackTop with
  | some ParseStackType.interface =>
    property_start_tag_checks sigValid (scanAttrs attrs)
  | _ => .ignored

/-- The attribute combinations on which property_start_tag raises an
error, in the order the checks are made: name missing or invalid, then
type missing or not a valid single complete signature, then access
missing or not one of read, write, readwrite. -/
def startAttrsBad (sigValid : String → Bool) (a : StartAttrs) : Bool :=
  match a.name with
  | none => true
  | some name =>
    if !property_name_valid name then true
    else match a.type with
    | none => true
    | some type =>
      if !sigValid type then true
      else match a.access with
      | none => true
      | some acc => !(acc = "read" || acc = "write" || acc = "readwrite")

theorem checks_isError (sigValid : String → Bool) (a : StartAttrs) :
    (property_start_tag_checks sigValid a).isError = startAttrsBad sigValid a := by
  unfold property_start_tag_checks startAttrsBad
  cases hn : a.name with
  | none => rfl
  | some name =>
    by_cases hv : property_name_valid name
    · cases ht : a.type with
      | none => simp [hv, StartTagResult.isError]
      | some type =>
        by_cases hs : sigValid type
        · cases ha : a.access with
          | none => simp [hv, hs, StartTagResult.isError]
          | some acc =>
            by_cases hr : acc = "read"
            · simp [hv, hs, hr, StartTagResult.isError]
            · by_cases hw : acc = "write"
              · simp [hv, hs, hr, hw, StartTagResult.isError]
              · by_cases hrw : acc = "readwrite"
                · simp [hv, hs, hr, hw, hrw, StartTagResult.isError]
                · simp [hv, hs, hr, hw, hrw, StartTagResult.isError]
        · simp [hv, hs, StartTagResult.isError]
    · simp [hv, StartTagResult.isError]

theorem scanAttr_unknown (st : StartAttrs) (k v : String)
    (hk : k ≠ "name" ∧ k ≠ "type" ∧ k ≠ "access") :
    scanAttr st (k, v) = st := by
  simp [scanAttr, hk.1, hk.2.1, hk.2.2]

theorem scanAttrs_unknown (pre post : List (String × String)) (k v : String)
    (hk : k ≠ "name" ∧ k ≠ "type" ∧ k ≠ "access") :
    scanAttrs (pre ++ (k, v) :: post) = scanAttrs (pre ++ post) := by
  unfold scanAttrs
  rw [List.foldl_append, List.foldl_append, List.foldl_cons,
    scanAttr_unknown _ _ _ hk]

/-- C9: property_start_tag raises an error exactly when the tag is
inside an interface and the scanned name attribute is missing or not a
valid member name, or the type attribute is missing or not a valid
single complete signature, or the access attribute is missing or not one
of read, write, readwrite; a tag whose parent is not an interface is
ignored (an Ignored marker is pushed and the function succeeds without
validating any attribute); and an unknown attribute anywhere in the
attribute array leaves the outcome unchanged. -/
theorem property_start_tag_spec (sigValid : String → Bool)
    (stackTop : Option ParseStackType)
    (attrs pre post : List (String × String)) (k v : String) :
    ((property_start_tag sigValid stackTop attrs).isError
        = (decide (stackTop = some ParseStackType.interface)
            && startAttrsBad sigValid (scanAttrs attrs))) ∧
    (stackTop ≠ some ParseStackType.interface →
        property_start_tag sigValid stackTop attrs = StartTagResult.ignored) ∧
    (k ≠ "name" ∧ k ≠ "type" ∧ k ≠ "access" →
        property_start_tag sigValid stackTop (pre ++ (k, v) :: post)
          = property_start_tag sigValid stackTop (pre ++ post)) := by
  refine ⟨?_, ?_, ?_⟩
  · match stackTop with
    | none => simp [property_start_tag, StartTagResult.isError]
    | some ParseStackType.interface =>
      simp [property_start_tag, checks_isError]
    | some ParseStackType.node | some ParseStackType.method
    | some ParseStackType.signal | some ParseStackType.argument
    | some ParseStackType.property | some ParseStackType.ignored =>
      simp [property_start_tag, StartTagResult.isError]
  · intro h
    match stackTop with
    | none => rfl
    | some ParseStackType.interface => exact absurd rfl h
    | some ParseStackType.node | some ParseStackType.method
    | some ParseStackType.signal | some ParseStackType.argument
    | some ParseStackType.property | some ParseStackType.ignored => rfl
  · intro hk
    match stackTop with
    | none => rfl
    | some ParseStackType.interface =>
      simp only [property_start_tag]
      rw [scanAttrs_unknown pre post k v hk]
    | some ParseStackType.node | some ParseStackType.method
    | some ParseStackType.signal | some ParseStackType.argument
    | some ParseStackType.property | some ParseStackType.ignored => rfl

/-- Witness for C9 at concrete inputs: a property tag whose parent is a
method is ignored, and an unknown attribute does not change the outcome
of a valid property tag inside an interface. -/
theorem property_start_tag_spec_witness :
    property_start_tag (fun _ => true) (some ParseStackType.method)
        [("name", "Name")] = StartTagResult.ignored ∧
      property_start_tag (fun _ => true) (some ParseStackType.interface)
          ([("name", "Name")] ++ ("colour", "blue") :: [("type", "s"), ("access", "read")])
        = property_start_tag (fun _ => true) (some ParseStackType.interface)
          ([("name", "Name")] ++ [("type", "s"), ("access", "read")]) :=
  ⟨(property_start_tag_spec (fun _ => true) (some ParseStackType.method)
        [("name", "Name")] [] [] "k" "v").2.1 (by decide),
    (property_start_tag_spec (fun _ => true) (some ParseStackType.interface)
        [] [("name", "Name")] [("type", "s"), ("access", "read")] "colour" "blue").2.2
      (by refine ⟨?_, ?_, ?_⟩ <;> decide)⟩

/-- Modelled from the spec: interface_lookup_property lives in
interface.c, which is not part of the corpus.  Per the specification,
symbols are unique within an interface and a duplicate is detected by
looking the finished symbol up among the properties already attached to
the interface, so the lookup returns the first attached property whose
symbol equals the given one. -/
def interface_lookup_property (props : List Property) (symbol : String) :
    Option Property :=
  props.find? (fun p => p.symbol == some symbol)

/-- Result of property_end_tag: either the DuplicateSymbol error naming
the clashing symbol and the conflicting member, or success recording the
symbol the property ended up with. -/
inductive EndTagResult where
  | duplicateSymbol (symbol conflictName : String)
  | added (symbol : String)
deriving DecidableEq

/-- Outcome of property_end_tag together with the interface property
list after the call. -/
structure EndTagOutcome where
  result : EndTagResult
  props : List Property
deriving DecidableEq

/-- property_end_tag (part_001 lines 296-348), with allocation assumed
to succeed.  symbol_from_name lives in symbol.c, outside the corpus, and
is passed in as the parameter symbolFromName; it is used only when the
property carries no explicit symbol.  On a conflict the error is raised
and the interface property list is left unchanged; otherwise the
finished property is appended to it. -/
def property_end_tag (symbolFromName : String → String)
    (props : List Property) (property : Property) : EndTagOutcome :=
  let sym := match property.symbol with
    | some s => s
    | none => symbolFromName property.name
  match interface_lookup_property props sym with
  | some conflict =>
    { result := .duplicateSymbol sym conflict.name, props := props }
  | none =>
    { result := .added sym,
      props := props ++ [{ property with symbol := some sym }] }

/-- C5: when the finished property's symbol (explicit, or derived from
its name by symbol_from_name) is already taken by a property attached to
the parent interface, property_end_tag raises DuplicateSymbol naming the
conflicting member and the property list is unchanged; otherwise the
property, with exactly that symbol and no renaming, is appended. -/
theorem property_end_tag_spec (symbolFromName : String → String)
    (props : List Property) (p : Property) :
    (∀ c, interface_lookup_property props (p.symbol.getD (symbolFromName p.name))
          = some c →
        property_end_tag symbolFromName props p =
          { result := EndTagResult.duplicateSymbol
              (p.symbol.getD (symbolFromName p.name)) c.name,
            props := props }) ∧
    (interface_lookup_property props (p.symbol.getD (symbolFromName p.name))
          = none →
        property_end_tag symbolFromName props p =
          { result := EndTagResult.added (p.symbol.getD (symbolFromName p.name)),
            props := props ++
              [{ p with symbol := some (p.symbol.getD (symbolFromName p.name)) }] }) := by
  have hsym : (match p.symbol with
      | some s => s
      | none => symbolFromName p.name) = p.symbol.getD (symbolFromName p.name) := by
    cases p.symbol <;> rfl
  constructor
  · intro c hc
    simp only [property_end_tag, hsym, hc]
  · intro hc
    simp only [property_end_tag, hsym, hc]

/-- Witness for C5 at a concrete input: a property named TestProperty
with no explicit symbol collides with an already attached property whose
symbol is the derived one, and the property list is unchanged. -/
theorem property_end_tag_spec_witness :
    property_end_tag (fun _ => "test_property")
        [{ name := "Existing", symbol := some "test_property", type := "s",
           access := NihDBusAccess.read, deprecated := false }]
        { name := "TestProperty", symbol := none, type := "s",
          access := NihDBusAccess.read, deprecated := false } =
      { result := EndTagResult.duplicateSymbol "test_property" "Existing",
        props := [{ name := "Existing", symbol := some "test_property", type := "s",
                    access := NihDBusAccess.read, deprecated := false }] } :=
  (property_end_tag_spec (fun _ => "test_property")
      [{ name := "Existing", symbol := some "test_property", type := "s",
         access := NihDBusAccess.read, deprecated := false }]
      { name := "TestProperty", symbol := none, type := "s",
        access := NihDBusAccess.read, deprecated := false }).1
    { name := "Existing", symbol := some "test_property", type := "s",
      access := NihDBusAccess.read, deprecated := false } (by decide)

/-- A variable declaration of the emitted code: C type and name (the
TypeVar record of type.h). -/
structure TypeVar where
  type : String
  name : String
deriving DecidableEq

/-- A function prototype of the emitted code: return type, name,
argument list and attribute list (the TypeFunc record of type.h). -/
structure TypeFunc where
  rettype : String
  name : String
  args : List TypeVar
  attribs : List String
deriving DecidableEq

/-- The prototype built by property_object_get_function (part_001 lines
476-499): int name(NihDBusObject *object, NihDBusMessage *message,
DBusMessageIter *iter) with no attributes; no attribute is ever added to
func in that function, the deprecated flag is never consulted for it. -/
def property_object_get_function_proto (name : String) : TypeFunc :=
  { rettype := "int", name := name,
    args := [{ type := "NihDBusObject *", name := "object" },
             { type := "NihDBusMessage *", name := "message" },
             { type := "DBusMessageIter *", name := "iter" }],
    attribs := [] }

/-- The prototype built by property_object_set_function (part_001 lines
719-743): same shape as the get stub, again with no attributes. -/
def property_object_set_function_proto (name : String) : TypeFunc :=
  { rettype := "int", name := name,
    args := [{ type := "NihDBusObject *", name := "object" },
             { type := "NihDBusMessage *", name := "message" },
             { type := "DBusMessageIter *", name := "iter" }],
    attribs := [] }

/-- The prototype built by property_proxy_get_sync_function (part_001
lines 996-1032 and 1203-1244): warn_unused_result always, deprecated
appended exactly when the property is deprecated, then the parent and
proxy arguments followed by one output pointer argument per demarshal
output (abstracted as outputArgs, which depends on the property type
through demarshal()). -/
def property_proxy_get_sync_function_proto (property : Property)
    (name : String) (outputArgs : List TypeVar) : TypeFunc :=
  { rettype := "int", name := name,
    args := [{ type := "const void *", name := "parent" },
             { type := "NihDBusProxy *", name := "proxy" }] ++ outputArgs,
    attribs := ["warn_unused_result"]
      ++ if property.deprecated then ["deprecated"] else [] }

/-- The prototype built by property_proxy_set_sync_function (part_001
lines 1376-1406 and 1520-1537): warn_unused_result always, deprecated
appended exactly when the property is deprecated, then the proxy
argument followed by one const input argument per marshal input
(abstracted as inputArgs). -/
def property_proxy_set_sync_function_proto (property : Property)
    (name : String) (inputArgs : List TypeVar) : TypeFunc :=
  { rettype := "int", name := name,
    args := { type := "NihDBusProxy *", name := "proxy" } :: inputArgs,
    attribs := ["warn_unused_result"]
      ++ if property.deprecated then ["deprecated"] else [] }

/-- C8: the client-side prototypes carry the deprecated attribute exactly
when the property's deprecated flag is set and always carry
warn_unused_result; the server-side stub prototypes never carry the
deprecated attribute. -/
theorem deprecated_attrib_spec (p : Property) (nm : String)
    (outs ins : List TypeVar) :
    (("deprecated" ∈ (property_proxy_get_sync_function_proto p nm outs).attribs)
        ↔ p.deprecated = true) ∧
    (("deprecated" ∈ (property_proxy_set_sync_function_proto p nm ins).attribs)
        ↔ p.deprecated = true) ∧
    "warn_unused_result" ∈ (property_proxy_get_sync_function_proto p nm outs).attribs ∧
    "warn_unused_result" ∈ (property_proxy_set_sync_function_proto p nm ins).attribs ∧
    "deprecated" ∉ (property_object_get_function_proto nm).attribs ∧
    "deprecated" ∉ (property_object_set_function_proto nm).attribs := by
  cases hd : p.deprecated <;>
    simp [property_proxy_get_sync_function_proto,
      property_proxy_set_sync_function_proto,
      property_object_get_function_proto, property_object_set_function_proto, hd]

/-- Witness for C8 at a concrete deprecated property: the client get
prototype carries both attributes. -/
theorem deprecated_attrib_spec_witness :
    "warn_unused_result" ∈ (property_proxy_get_sync_function_proto
        { name := "Name", symbol := none, type := "s",
          access := NihDBusAccess.read, deprecated := true } "f" []).attribs :=
  (deprecated_attrib_spec
      { name := "Name", symbol := none, type := "s",
        access := NihDBusAccess.read, deprecated := true } "f" [] []).2.2.1

/-- D-Bus type signatures, one constructor per complete type of the
grammar in the specification: the basic codes y b n q i u x t d s o g h,
arrays, structs, dict entries and variants. -/
inductive DBusType where
  | byte
  | boolean
  | int16
  | uint16
  | int32
  | uint32
  | int64
  | uint64
  | double
  | string
  | objectPath
  | signature
  | unixFD
  | array (elem : DBusType)
  | structT (fields : List DBusType)
  | dictEntry (key value : DBusType)
  | variant

mutual
/-- A D-Bus wire value sitting at a message iterator position.  The
double payload is the raw bit pattern; no floating-point arithmetic is
performed on it. -/
inductive DBusValue where
  | byte (v : Nat)
  | boolean (v : Bool)
  | int16 (v : Int)
  | uint16 (v : Nat)
  | int32 (v : Int)
  | uint32 (v : Nat)
  | int64 (v : Int)
  | uint64 (v : Nat)
  | double (bits : Nat)
  | string (s : String)
  | objectPath (s : String)
  | signature (s : String)
  | unixFD (v : Nat)
  | array (elemType : DBusType) (elems : DBusSeq)
  | structV (fields : DBusSeq)
  | dictEntry (key value : DBusValue)
  | variant (inner : DBusValue)

/-- A sequence of wire values: array elements, struct fields or the
argument list of a message. -/
inductive DBusSeq where
  | nil
  | cons (head : DBusValue) (tail : DBusSeq)
end

mutual
/-- The type code reported by dbus_message_iter_get_arg_type together
with the full contained signature, as a DBusType. -/
def DBusValue.typeOf : DBusValue → DBusType
  | .byte _ => .byte
  | .boolean _ => .boolean
  | .int16 _ => .int16
  | .uint16 _ => .uint16
  | .int32 _ => .int32
  | .uint32 _ => .uint32
  | .int64 _ => .int64
  | .uint64 _ => .uint64
  | .double _ => .double
  | .string _ => .string
  | .objectPath _ => .objectPath
  | .signature _ => .signature
  | .unixFD _ => .unixFD
  | .array t _ => .array t
  | .structV fields => .structT fields.typesOf
  | .dictEntry k v => .dictEntry k.typeOf v.typeOf
  | .variant _ => .variant

/-- Types of the members of a sequence of wire values. -/
def DBusSeq.typesOf : DBusSeq → List DBusType
  | .nil => []
  | .cons h t => h.typeOf :: t.typesOf
end

/-- Container events of an execution path of emitted code: a successful
dbus_message_iter_open_container call (a container is now open) and a
dbus_message_iter_close_container call. -/
inductive Ev where
  | openc
  | closec
deriving DecidableEq

/-- Number of successful open_container calls in a path trace. -/
def countOpen : List Ev → Nat
  | [] => 0
  | Ev.openc :: r => countOpen r + 1
  | Ev.closec :: r => countOpen r

/-- Number of close_container calls in a path trace. -/
def countClose : List Ev → Nat
  | [] => 0
  | Ev.openc :: r => countClose r
  | Ev.closec :: r => countClose r + 1

/-- Net number of open_container minus close_container calls. -/
def net (evs : List Ev) : Int :=
  (countOpen evs : Int) - countClose evs

theorem countOpen_append (a b : List Ev) :
    countOpen (a ++ b) = countOpen a + countOpen b := by
  induction a with
  | nil => simp [countOpen]
  | cons e r ih => cases e <;> simp [countOpen, ih] <;> omega

theorem countClose_append (a b : List Ev) :
    countClose (a ++ b) = countClose a + countClose b := by
  induction a with
  | nil => simp [countClose]
  | cons e r ih => cases e <;> simp [countClose, ih] <;> omega

theorem net_append (a b : List Ev) : net (a ++ b) = net a + net b := by
  unfold net
  rw [countOpen_append, countClose_append]
  push_cast
  ring

theorem net_open_cons (l : List Ev) : net (Ev.openc :: l) = net l + 1 := by
  unfold net
  simp only [countOpen, countClose]
  omega

theorem net_close_cons (l : List Ev) : net (Ev.closec :: l) = net l - 1 := by
  unfold net
  simp only [countOpen, countClose]
  omega

theorem net_zero_iff (l : List Ev) :
    net l = 0 ↔ countOpen l = countClose l := by
  unfold net
  omega

/-- One allocating step of emitted code against the allocation oracle:
consume the head boolean; an exhausted oracle means success. -/
def takeAlloc : List Bool → Bool × List Bool
  | [] => (true, [])
  | b :: rest => (b, rest)

/-- Marshalling one basic value: a dbus_message_iter_append_basic call,
which can fail on out of memory, in which case the caller-supplied
recovery fragment (container events oomEvs) runs. -/
def marshalBasicStep (oomEvs : List Ev) (or : List Bool) :
    List Ev × List Bool × Bool :=
  match takeAlloc or with
  | (ok, or') => if ok then ([], or', true) else (oomEvs, or', false)

/-- The closing step shared by every container marshalling fragment: on
entry the sub-iterator is open and the inner fragment's result is given.
A failed inner fragment has already closed the sub-iterator and run the
recovery, so its events are just prefixed with the successful open; a
successful inner fragment is followed by the close_container call, whose
own failure also runs the recovery fragment. -/
def containerFinish (oomEvs : List Ev) :
    List Ev × List Bool × Bool → List Ev × List Bool × Bool
  | (evs, or2, ok2) =>
    if !ok2 then (Ev.openc :: evs, or2, false)
    else
      match takeAlloc or2 with
      | (ok3, or3) =>
        if ok3 then (Ev.openc :: (evs ++ [Ev.closec]), or3, true)
        else (Ev.openc :: (evs ++ Ev.closec :: oomEvs), or3, false)

mutual
/-- Modelled from the spec: marshal() lives in marshal.c, which is not
part of the corpus.  Runtime container-event behaviour of the code
fragment it emits for one complete type, following section 4.3 of the
specification and the literal fragments for type s recorded in the test
suite: a basic value is one append_basic call; a compound value opens a
sub-iterator (a failing open leaves no container open and runs the
recovery), marshals its children with a recovery fragment extended by a
close of that sub-iterator, and closes it.  Returns the events of the
executed path, the remaining oracle, and whether the path succeeded; on
failure the recovery fragment (events oomEvs) has already run as part of
the returned events. -/
def marshalVal (oomEvs : List Ev) : DBusValue → List Bool →
    List Ev × List Bool × Bool
  | .byte _, or => marshalBasicStep oomEvs or
  | .boolean _, or => marshalBasicStep oomEvs or
  | .int16 _, or => marshalBasicStep oomEvs or
  | .uint16 _, or => marshalBasicStep oomEvs or
  | .int32 _, or => marshalBasicStep oomEvs or
  | .uint32 _, or => marshalBasicStep oomEvs or
  | .int64 _, or => marshalBasicStep oomEvs or
  | .uint64 _, or => marshalBasicStep oomEvs or
  | .double _, or => marshalBasicStep oomEvs or
  | .string _, or => marshalBasicStep oomEvs or
  | .objectPath _, or => marshalBasicStep oomEvs or
  | .signature _, or => marshalBasicStep oomEvs or
  | .unixFD _, or => marshalBasicStep oomEvs or
  | .array _ elems, or =>
    match takeAlloc or with
    | (ok1, or1) =>
      if !ok1 then (oomEvs, or1, false)
      else containerFinish oomEvs (marshalSeq (Ev.closec :: oomEvs) elems or1)
  | .structV fields, or =>
    match takeAlloc or with
    | (ok1, or1) =>
      if !ok1 then (oomEvs, or1, false)
      else containerFinish oomEvs (marshalSeq (Ev.closec :: oomEvs) fields or1)
  | .dictEntry k v, or =>
    match takeAlloc or with
    | (ok1, or1) =>
      if !ok1 then (oomEvs, or1, false)
      else containerFinish oomEvs (marshalPair (Ev.closec :: oomEvs) k v or1)
  | .variant inner, or =>
    match takeAlloc or with
    | (ok1, or1) =>
      if !ok1 then (oomEvs, or1, false)
      else containerFinish oomEvs (marshalVal (Ev.closec :: oomEvs) inner or1)
termination_by v _ => (sizeOf v, 1)

/-- Marshalling a dict entry's key then value inside the opened
dict-entry sub-iterator, stopping at the first failure. -/
def marshalPair (oomEvs : List Ev) (k v : DBusValue) (or : List Bool) :
    List Ev × List Bool × Bool :=
  match marshalVal oomEvs k or with
  | (evs1, or1, ok1) =>
    if !ok1 then (evs1, or1, false)
    else
      match marshalVal oomEvs v or1 with
      | (evs2, or2, ok2) => (evs1 ++ evs2, or2, ok2)
termination_by (1 + sizeOf k + sizeOf v, 0)

/-- Marshalling the members of a sequence one after the other, stopping
at the first failure. -/
def marshalSeq (oomEvs : List Ev) : DBusSeq → List Bool →
    List Ev × List Bool × Bool
  | .nil, or => ([], or, true)
  | .cons v vs, or =>
    match marshalVal oomEvs v or with
    | (evs1, or1, ok1) =>
      if !ok1 then (evs1, or1, false)
      else
        match marshalSeq oomEvs vs or1 with
        | (evs2, or2, ok2) => (evs1 ++ evs2, or2, ok2)
termination_by s _ => (sizeOf s, 0)
end

theorem net_nil : net [] = 0 := rfl

theorem marshalBasicStep_net (oomEvs : List Ev) (or : List Bool) :
    net (marshalBasicStep oomEvs or).1
      = if (marshalBasicStep oomEvs or).2.2 then 0 else net oomEvs := by
  unfold marshalBasicStep
  rcases takeAlloc or with ⟨ok, or2⟩
  cases ok <;> simp [net_nil]

theorem containerFinish_net (oomEvs evs : List Ev) (or2 : List Bool)
    (ok2 : Bool)
    (h : net evs = if ok2 then 0 else net (Ev.closec :: oomEvs)) :
    net (containerFinish oomEvs (evs, or2, ok2)).1
      = if (containerFinish oomEvs (evs, or2, ok2)).2.2 then 0
        else net oomEvs := by
  unfold containerFinish
  cases ok2 with
  | false =>
    rw [net_close_cons] at h
    simp only [Bool.not_false, if_true]
    rw [net_open_cons, h]
    ring_nf
    simp
  | true =>
    simp only [if_true] at h
    simp only [Bool.not_true, Bool.false_eq_true, if_false]
    rcases takeAlloc or2 with ⟨ok3, or3⟩
    cases ok3 with
    | true =>
      have hc : net [Ev.closec] = -1 := by simp [net, countOpen, countClose]
      simp only [if_true]
      rw [net_open_cons, net_append, h, hc]
      ring
    | false =>
      simp only [Bool.false_eq_true, if_false]
      rw [net_open_cons, net_append, h, net_close_cons]
      ring

mutual
theorem marshalVal_net : ∀ (oomEvs : List Ev) (v : DBusValue) (or : List Bool),
    net (marshalVal oomEvs v or).1
      = if (marshalVal oomEvs v or).2.2 then 0 else net oomEvs
  | oomEvs, .byte _, or => by
    simp only [marshalVal]; exact marshalBasicStep_net oomEvs or
  | oomEvs, .boolean _, or => by
    simp only [marshalVal]; exact marshalBasicStep_net oomEvs or
  | oomEvs, .int16 _, or => by
    simp only [marshalVal]; exact marshalBasicStep_net oomEvs or
  | oomEvs, .uint16 _, or => by
    simp only [marshalVal]; exact marshalBasicStep_net oomEvs or
  | oomEvs, .int32 _, or => by
    simp only [marshalVal]; exact marshalBasicStep_net oomEvs or
  | oomEvs, .uint32 _, or => by
    simp only [marshalVal]; exact marshalBasicStep_net oomEvs or
  | oomEvs, .int64 _, or => by
    simp only [marshalVal]; exact marshalBasicStep_net oomEvs or
  | oomEvs, .uint64 _, or => by
    simp only [marshalVal]; exact marshalBasicStep_net oomEvs or
  | oomEvs, .double _, or => by
    simp only [marshalVal]; exact marshalBasicStep_net oomEvs or
  | oomEvs, .string _, or => by
    simp only [marshalVal]; exact marshalBasicStep_net oomEvs or
  | oomEvs, .objectPath _, or => by
    simp only [marshalVal]; exact marshalBasicStep_net oomEvs or
  | oomEvs, .signature _, or => by
    simp only [marshalVal]; exact marshalBasicStep_net oomEvs or
  | oomEvs, .unixFD _, or => by
    simp only [marshalVal]; exact marshalBasicStep_net oomEvs or
  | oomEvs, .array t elems, or => by
    simp only [marshalVal]
    rcases h1 : takeAlloc or with ⟨ok1, or1⟩
    try rw [h1]
    cases ok1 with
    | false => simp
    | true =>
      simp only [Bool.not_true, Bool.false_eq_true, if_false]
      have ih := marshalSeq_net (Ev.closec :: oomEvs) elems or1
      rcases h2 : marshalSeq (Ev.closec :: oomEvs) elems or1 with ⟨evs, or2, ok2⟩
      rw [h2] at ih
      try rw [h2]
      exact containerFinish_net oomEvs evs or2 ok2 ih
  | oomEvs, .structV fields, or => by
    simp only [marshalVal]
    rcases h1 : takeAlloc or with ⟨ok1, or1⟩
    try rw [h1]
    cases ok1 with
    | false => simp
    | true =>
      simp only [Bool.not_true, Bool.false_eq_true, if_false]
      have ih := marshalSeq_net (Ev.closec :: oomEvs) fields or1
      rcases h2 : marshalSeq (Ev.closec :: oomEvs) fields or1 with ⟨evs, or2, ok2⟩
      rw [h2] at ih
      try rw [h2]
      exact containerFinish_net oomEvs evs or2 ok2 ih
  | oomEvs, .dictEntry k v, or => by
    simp only [marshalVal]
    rcases h1 : takeAlloc or with ⟨ok1, or1⟩
    try rw [h1]
    cases ok1 with
    | false => simp
    | true =>
      simp only [Bool.not_true, Bool.false_eq_true, if_false]
      have ih := marshalPair_net (Ev.closec :: oomEvs) k v or1
      rcases h2 : marshalPair (Ev.closec :: oomEvs) k v or1 with ⟨evs, or2, ok2⟩
      rw [h2] at ih
      try rw [h2]
      exact containerFinish_net oomEvs evs or2 ok2 ih
  | oomEvs, .variant inner, or => by
    simp only [marshalVal]
    rcases h1 : takeAlloc or with ⟨ok1, or1⟩
    try rw [h1]
    cases ok1 with
    | false => simp
    | true =>
      simp only [Bool.not_true, Bool.false_eq_true, if_false]
      have ih := marshalVal_net (Ev.closec :: oomEvs) inner or1
      rcases h2 : marshalVal (Ev.closec :: oomEvs) inner or1 with ⟨evs, or2, ok2⟩
      rw [h2] at ih
      try rw [h2]
      exact containerFinish_net oomEvs evs or2 ok2 ih
termination_by _ v _ => (sizeOf v, 1)

theorem marshalPair_net : ∀ (oomEvs : List Ev) (k v : DBusValue) (or : List Bool),
    net (marshalPair oomEvs k v or).1
      = if (marshalPair oomEvs k v or).2.2 then 0 else net oomEvs
  | oomEvs, k, v, or => by
    unfold marshalPair
    have ih1 := marshalVal_net oomEvs k or
    rcases h1 : marshalVal oomEvs k or with ⟨evs1, or1, ok1⟩
    rw [h1] at ih1
    try rw [h1]
    cases ok1 with
    | false => simpa using ih1
    | true =>
      simp only [if_true] at ih1
      simp only [Bool.not_true, Bool.false_eq_true, if_false]
      have ih2 := marshalVal_net oomEvs v or1
      rcases h2 : marshalVal oomEvs v or1 with ⟨evs2, or2, ok2⟩
      rw [h2] at ih2
      try rw [h2]
      rw [net_append, ih1]
      cases ok2 with
      | false =>
        simp only [Bool.false_eq_true, if_false] at ih2 ⊢
        rw [ih2]
        ring
      | true =>
        simp only [if_true] at ih2 ⊢
        rw [ih2]
        ring
termination_by _ k v _ => (1 + sizeOf k + sizeOf v, 0)

theorem marshalSeq_net : ∀ (oomEvs : List Ev) (s : DBusSeq) (or : List Bool),
    net (marshalSeq oomEvs s or).1
      = if (marshalSeq oomEvs s or).2.2 then 0 else net oomEvs
  | _, .nil, _ => by simp [marshalSeq, net_nil]
  | oomEvs, .cons v vs, or => by
    simp only [marshalSeq]
    have ih1 := marshalVal_net oomEvs v or
    rcases h1 : marshalVal oomEvs v or with ⟨evs1, or1, ok1⟩
    rw [h1] at ih1
    try rw [h1]
    cases ok1 with
    | false => simpa using ih1
    | true =>
      simp only [if_true] at ih1
      simp only [Bool.not_true, Bool.false_eq_true, if_false]
      have ih2 := marshalSeq_net oomEvs vs or1
      rcases h2 : marshalSeq oomEvs vs or1 with ⟨evs2, or2, ok2⟩
      rw [h2] at ih2
      try rw [h2]
      rw [net_append, ih1]
      cases ok2 with
      | false =>
        simp only [Bool.false_eq_true, if_false] at ih2 ⊢
        rw [ih2]
        ring
      | true =>
        simp only [if_true] at ih2 ⊢
        rw [ih2]
        ring
termination_by _ s _ => (sizeOf s, 0)
end

mutual
/-- Whether a wire value is acceptable to the stepwise type checking the
demarshalling fragments perform against an expected signature: the
top-level argument type code must agree at every level, array elements
are checked one by one (an empty array passes regardless of its wire
element signature), struct fields are checked in order with exact arity,
dict entries check key and value, and a variant is self-describing, its
inner value checked against its own reported type. -/
def wireMatches : DBusType → DBusValue → Bool
  | t, .byte _ => (match t with | .byte => true | _ => false)
  | t, .boolean _ => (match t with | .boolean => true | _ => false)
  | t, .int16 _ => (match t with | .int16 => true | _ => false)
  | t, .uint16 _ => (match t with | .uint16 => true | _ => false)
  | t, .int32 _ => (match t with | .int32 => true | _ => false)
  | t, .uint32 _ => (match t with | .uint32 => true | _ => false)
  | t, .int64 _ => (match t with | .int64 => true | _ => false)
  | t, .uint64 _ => (match t with | .uint64 => true | _ => false)
  | t, .double _ => (match t with | .double => true | _ => false)
  | t, .string _ => (match t with | .string => true | _ => false)
  | t, .objectPath _ => (match t with | .objectPath => true | _ => false)
  | t, .signature _ => (match t with | .signature => true | _ => false)
  | t, .unixFD _ => (match t with | .unixFD => true | _ => false)
  | t, .array _ elems =>
    match t with
    | .array te => elemsMatch te elems
    | _ => false
  | t, .structV fields =>
    match t with
    | .structT ts => fieldsMatch ts fields
    | _ => false
  | t, .dictEntry k v =>
    match t with
    | .dictEntry kt vt => wireMatches kt k && wireMatches vt v
    | _ => false
  | t, .variant inner =>
    match t with
    | .variant => wireMatches inner.typeOf inner
    | _ => false
termination_by _ w => sizeOf w

/-- Every element of an array matches the expected element type. -/
def elemsMatch (t : DBusType) : DBusSeq → Bool
  | .nil => true
  | .cons h tl => wireMatches t h && elemsMatch t tl
termination_by s => sizeOf s

/-- Struct fields match the expected field types in order, exactly. -/
def fieldsMatch : List DBusType → DBusSeq → Bool
  | [], .nil => true
  | t :: ts, .cons h tl => wireMatches t h && fieldsMatch ts tl
  | _, _ => false
termination_by _ s => sizeOf s
end

/-- Result of one demarshalling fragment: the demarshalled value, a wire
type mismatch (the type-error recovery fragment runs), or an allocation
failure (the out-of-memory recovery fragment runs). -/
inductive DemRes where
  | ok (v : DBusValue)
  | typeErr
  | oomFail

/-- Result of demarshalling a sequence of wire values. -/
inductive DemSeqRes where
  | ok (s : DBusSeq)
  | typeErr
  | oomFail

mutual
/-- Modelled from the spec: demarshal() lives in demarshal.c, which is
not part of the corpus.  Runtime behaviour of the fragment it emits for
one complete expected type, following section 4.4 of the specification
and the literal fragments for type s recorded in the test suite: compare
the iterator's argument type code with the expected one and surrender to
the type-error recovery on mismatch (type mismatch is reported before
any allocation of the same step); read basic values, duplicating
string-like ones into storage parented to the supplied parent, one
allocation whose failure surrenders to the out-of-memory recovery;
arrays allocate the result sequence parented to parent and demarshal
each element; structs demarshal each field in order; dict entries
demarshal key then value; a variant reads the contained signature and
recurses on it.  Returns the result, the owners of the allocations
performed in order, and the remaining oracle. -/
def demarshalVal (parent : String) : DBusType → DBusValue → List Bool →
    DemRes × List String × List Bool
  | t, .byte n, or =>
    match t with
    | .byte => (.ok (.byte n), [], or)
    | _ => (.typeErr, [], or)
  | t, .boolean b, or =>
    match t with
    | .boolean => (.ok (.boolean b), [], or)
    | _ => (.typeErr, [], or)
  | t, .int16 n, or =>
    match t with
    | .int16 => (.ok (.int16 n), [], or)
    | _ => (.typeErr, [], or)
  | t, .uint16 n, or =>
    match t with
    | .uint16 => (.ok (.uint16 n), [], or)
    | _ => (.typeErr, [], or)
  | t, .int32 n, or =>
    match t with
    | .int32 => (.ok (.int32 n), [], or)
    | _ => (.typeErr, [], or)
  | t, .uint32 n, or =>
    match t with
    | .uint32 => (.ok (.uint32 n), [], or)
    | _ => (.typeErr, [], or)
  | t, .int64 n, or =>
    match t with
    | .int64 => (.ok (.int64 n), [], or)
    | _ => (.typeErr, [], or)
  | t, .uint64 n, or =>
    match t with
    | .uint64 => (.ok (.uint64 n), [], or)
    | _ => (.typeErr, [], or)
  | t, .double b, or =>
    match t with
    | .double => (.ok (.double b), [], or)
    | _ => (.typeErr, [], or)
  | t, .string s, or =>
    match t with
    | .string =>
      (match takeAlloc or with
       | (ok, or1) =>
         if ok then (.ok (.string s), [parent], or1) else (.oomFail, [], or1))
    | _ => (.typeErr, [], or)
  | t, .objectPath s, or =>
    match t with
    | .objectPath =>
      (match takeAlloc or with
       | (ok, or1) =>
         if ok then (.ok (.objectPath s), [parent], or1) else (.oomFail, [], or1))
    | _ => (.typeErr, [], or)
  | t, .signature s, or =>
    match t with
    | .signature =>
      (match takeAlloc or with
       | (ok, or1) =>
         if ok then (.ok (.signature s), [parent], or1) else (.oomFail, [], or1))
    | _ => (.typeErr, [], or)
  | t, .unixFD n, or =>
    match t with
    | .unixFD => (.ok (.unixFD n), [], or)
    | _ => (.typeErr, [], or)
  | t, .array t2 elems, or =>
    match t with
    | .array te =>
      (match takeAlloc or with
       | (ok, or1) =>
         if !ok then (.oomFail, [], or1)
         else
           match demarshalElems parent te elems or1 with
           | (.ok s, os, or2) => (.ok (.array t2 s), parent :: os, or2)
           | (.typeErr, os, or2) => (.typeErr, parent :: os, or2)
           | (.oomFail, os, or2) => (.oomFail, parent :: os, or2))
    | _ => (.typeErr, [], or)
  | t, .structV fields, or =>
    match t with
    | .structT ts =>
      (match demarshalFields parent ts fields or with
       | (.ok s, os, or2) => (.ok (.structV s), os, or2)
       | (.typeErr, os, or2) => (.typeErr, os, or2)
       | (.oomFail, os, or2) => (.oomFail, os, or2))
    | _ => (.typeErr, [], or)
  | t, .dictEntry k v, or =>
    match t with
    | .dictEntry kt vt =>
      (match demarshalVal parent kt k or with
       | (.ok kw, os1, or1) =>
         (match demarshalVal parent vt v or1 with
          | (.ok vw, os2, or2) => (.ok (.dictEntry kw vw), os1 ++ os2, or2)
          | (.typeErr, os2, or2) => (.typeErr, os1 ++ os2, or2)
          | (.oomFail, os2, or2) => (.oomFail, os1 ++ os2, or2))
       | (.typeErr, os1, or1) => (.typeErr, os1, or1)
       | (.oomFail, os1, or1) => (.oomFail, os1, or1))
    | _ => (.typeErr, [], or)
  | t, .variant inner, or =>
    match t with
    | .variant =>
      (match demarshalVal parent inner.typeOf inner or with
       | (.ok w, os, or1) => (.ok (.variant w), os, or1)
       | (.typeErr, os, or1) => (.typeErr, os, or1)
       | (.oomFail, os, or1) => (.oomFail, os, or1))
    | _ => (.typeErr, [], or)
termination_by _ w _ => sizeOf w

/-- Demarshalling the elements of an array one by one against the
expected element type. -/
def demarshalElems (parent : String) (t : DBusType) : DBusSeq → List Bool →
    DemSeqRes × List String × List Bool
  | .nil, or => (.ok .nil, [], or)
  | .cons h tl, or =>
    match demarshalVal parent t h or with
    | (.ok w, os1, or1) =>
      (match demarshalElems parent t tl or1 with
       | (.ok s, os2, or2) => (.ok (.cons w s), os1 ++ os2, or2)
       | (.typeErr, os2, or2) => (.typeErr, os1 ++ os2, or2)
       | (.oomFail, os2, or2) => (.oomFail, os1 ++ os2, or2))
    | (.typeErr, os1, or1) => (.typeErr, os1, or1)
    | (.oomFail, os1, or1) => (.oomFail, os1, or1)
termination_by s _ => sizeOf s

/-- Demarshalling struct fields in order against the expected field
types, with exact arity. -/
def demarshalFields (parent : String) : List DBusType → DBusSeq → List Bool →
    DemSeqRes × List String × List Bool
  | [], .nil, or => (.ok .nil, [], or)
  | t :: ts, .cons h tl, or =>
    match demarshalVal parent t h or with
    | (.ok w, os1, or1) =>
      (match demarshalFields parent ts tl or1 with
       | (.ok s, os2, or2) => (.ok (.cons w s), os1 ++ os2, or2)
       | (.typeErr, os2, or2) => (.typeErr, os1 ++ os2, or2)
       | (.oomFail, os2, or2) => (.oomFail, os1 ++ os2, or2))
    | (.typeErr, os1, or1) => (.typeErr, os1, or1)
    | (.oomFail, os1, or1) => (.oomFail, os1, or1)
  | _, _, or => (.typeErr, [], or)
termination_by _ s _ => sizeOf s
end

mutual
theorem demarshalVal_nil : ∀ (parent : String) (t : DBusType) (w : DBusValue),
    ∃ os, demarshalVal parent t w []
        = ((if wireMatches t w then DemRes.ok w else DemRes.typeErr), os, [])
      ∧ ∀ o ∈ os, o = parent
  | parent, t, .byte n => by
    cases t <;> exact ⟨[], by simp [demarshalVal, wireMatches], by simp⟩
  | parent, t, .boolean b => by
    cases t <;> exact ⟨[], by simp [demarshalVal, wireMatches], by simp⟩
  | parent, t, .int16 n => by
    cases t <;> exact ⟨[], by simp [demarshalVal, wireMatches], by simp⟩
  | parent, t, .uint16 n => by
    cases t <;> exact ⟨[], by simp [demarshalVal, wireMatches], by simp⟩
  | parent, t, .int32 n => by
    cases t <;> exact ⟨[], by simp [demarshalVal, wireMatches], by simp⟩
  | parent, t, .uint32 n => by
    cases t <;> exact ⟨[], by simp [demarshalVal, wireMatches], by simp⟩
  | parent, t, .int64 n => by
    cases t <;> exact ⟨[], by simp [demarshalVal, wireMatches], by simp⟩
  | parent, t, .uint64 n => by
    cases t <;> exact ⟨[], by simp [demarshalVal, wireMatches], by simp⟩
  | parent, t, .double b => by
    cases t <;> exact ⟨[], by simp [demarshalVal, wireMatches], by simp⟩
  | parent, t, .string s => by
    cases t with
    | string =>
      exact ⟨[parent], by simp [demarshalVal, takeAlloc, wireMatches], by simp⟩
    | _ => exact ⟨[], by simp [demarshalVal, wireMatches], by simp⟩
  | parent, t, .objectPath s => by
    cases t with
    | objectPath =>
      exact ⟨[parent], by simp [demarshalVal, takeAlloc, wireMatches], by simp⟩
    | _ => exact ⟨[], by simp [demarshalVal, wireMatches], by simp⟩
  | parent, t, .signature s => by
    cases t with
    | signature =>
      exact ⟨[parent], by simp [demarshalVal, takeAlloc, wireMatches], by simp⟩
    | _ => exact ⟨[], by simp [demarshalVal, wireMatches], by simp⟩
  | parent, t, .unixFD n => by
    cases t <;> exact ⟨[], by simp [demarshalVal, wireMatches], by simp⟩
  | parent, t, .array t2 elems => by
    cases t with
    | array te =>
      obtain ⟨os, hs, ho⟩ := demarshalElems_nil parent te elems
      refine ⟨parent :: os, ?_, ?_⟩
      · by_cases hm : elemsMatch te elems = true
        · rw [hm] at hs
          simp [demarshalVal, takeAlloc, wireMatches, hs, hm]
        · have hm' : elemsMatch te elems = false := by simpa using hm
          rw [hm'] at hs
          simp [demarshalVal, takeAlloc, wireMatches, hs, hm']
      · intro o hmem
        rcases List.mem_cons.mp hmem with h | h
        · exact h
        · exact ho o h
    | _ => exact ⟨[], by simp [demarshalVal, wireMatches], by simp⟩
  | parent, t, .structV fields => by
    cases t with
    | structT ts =>
      obtain ⟨os, hs, ho⟩ := demarshalFields_nil parent ts fields
      refine ⟨os, ?_, ho⟩
      by_cases hm : fieldsMatch ts fields = true
      · rw [hm] at hs
        simp [demarshalVal, wireMatches, hs, hm]
      · have hm' : fieldsMatch ts fields = false := by simpa using hm
        rw [hm'] at hs
        simp [demarshalVal, wireMatches, hs, hm']
    | _ => exact ⟨[], by simp [demarshalVal, wireMatches], by simp⟩
  | parent, t, .dictEntry k v => by
    cases t with
    | dictEntry kt vt =>
      obtain ⟨os1, hk, ho1⟩ := demarshalVal_nil parent kt k
      obtain ⟨os2, hv, ho2⟩ := demarshalVal_nil parent vt v
      by_cases hmk : wireMatches kt k = true
      · rw [hmk] at hk
        by_cases hmv : wireMatches vt v = true
        · rw [hmv] at hv
          refine ⟨os1 ++ os2, ?_, ?_⟩
          · simp [demarshalVal, wireMatches, hk, hv, hmk, hmv]
          · intro o hmem
            rcases List.mem_append.mp hmem with h | h
            · exact ho1 o h
            · exact ho2 o h
        · have hmv' : wireMatches vt v = false := by simpa using hmv
          rw [hmv'] at hv
          refine ⟨os1 ++ os2, ?_, ?_⟩
          · simp [demarshalVal, wireMatches, hk, hv, hmk, hmv']
          · intro o hmem
            rcases List.mem_append.mp hmem with h | h
            · exact ho1 o h
            · exact ho2 o h
      · have hmk' : wireMatches kt k = false := by simpa using hmk
        rw [hmk'] at hk
        refine ⟨os1, ?_, ho1⟩
        simp [demarshalVal, wireMatches, hk, hmk']
    | _ => exact ⟨[], by simp [demarshalVal, wireMatches], by simp⟩
  | parent, t, .variant inner => by
    cases t with
    | variant =>
      obtain ⟨os, hi, ho⟩ := demarshalVal_nil parent inner.typeOf inner
      refine ⟨os, ?_, ho⟩
      by_cases hm : wireMatches inner.typeOf inner = true
      · rw [hm] at hi
        simp [demarshalVal, wireMatches, hi, hm]
      · have hm' : wireMatches inner.typeOf inner = false := by simpa using hm
        rw [hm'] at hi
        simp [demarshalVal, wireMatches, hi, hm']
    | _ => exact ⟨[], by simp [demarshalVal, wireMatches], by simp⟩
termination_by _ _ w => sizeOf w

theorem demarshalElems_nil : ∀ (parent : String) (t : DBusType) (s : DBusSeq),
    ∃ os, demarshalElems parent t s []
        = ((if elemsMatch t s then DemSeqRes.ok s else DemSeqRes.typeErr), os, [])
      ∧ ∀ o ∈ os, o = parent
  | parent, t, .nil => ⟨[], by simp [demarshalElems, elemsMatch], by simp⟩
  | parent, t, .cons h tl => by
    obtain ⟨os1, hh, ho1⟩ := demarshalVal_nil parent t h
    obtain ⟨os2, ht, ho2⟩ := demarshalElems_nil parent t tl
    by_cases hmh : wireMatches t h = true
    · rw [hmh] at hh
      by_cases hmt : elemsMatch t tl = true
      · rw [hmt] at ht
        refine ⟨os1 ++ os2, ?_, ?_⟩
        · simp [demarshalElems, elemsMatch, hh, ht, hmh, hmt]
        · intro o hmem
          rcases List.mem_append.mp hmem with hx | hx
          · exact ho1 o hx
          · exact ho2 o hx
      · have hmt' : elemsMatch t tl = false := by simpa using hmt
        rw [hmt'] at ht
        refine ⟨os1 ++ os2, ?_, ?_⟩
        · simp [demarshalElems, elemsMatch, hh, ht, hmh, hmt']
        · intro o hmem
          rcases List.mem_append.mp hmem with hx | hx
          · exact ho1 o hx
          · exact ho2 o hx
    · have hmh' : wireMatches t h = false := by simpa using hmh
      rw [hmh'] at hh
      refine ⟨os1, ?_, ho1⟩
      simp [demarshalElems, elemsMatch, hh, hmh']
termination_by _ _ s => sizeOf s

theorem demarshalFields_nil : ∀ (parent : String) (ts : List DBusType) (s : DBusSeq),
    ∃ os, demarshalFields parent ts s []
        = ((if fieldsMatch ts s then DemSeqRes.ok s else DemSeqRes.typeErr), os, [])
      ∧ ∀ o ∈ os, o = parent
  | parent, [], .nil => ⟨[], by simp [demarshalFields, fieldsMatch], by simp⟩
  | parent, [], .cons h tl => ⟨[], by simp [demarshalFields, fieldsMatch], by simp⟩
  | parent, t :: ts, .nil => ⟨[], by simp [demarshalFields, fieldsMatch], by simp⟩
  | parent, t :: ts, .cons h tl => by
    obtain ⟨os1, hh, ho1⟩ := demarshalVal_nil parent t h
    obtain ⟨os2, ht, ho2⟩ := demarshalFields_nil parent ts tl
    by_cases hmh : wireMatches t h = true
    · rw [hmh] at hh
      by_cases hmt : fieldsMatch ts tl = true
      · rw [hmt] at ht
        refine ⟨os1 ++ os2, ?_, ?_⟩
        · simp [demarshalFields, fieldsMatch, hh, ht, hmh, hmt]
        · intro o hmem
          rcases List.mem_append.mp hmem with hx | hx
          · exact ho1 o hx
          · exact ho2 o hx
      · have hmt' : fieldsMatch ts tl = false := by simpa using hmt
        rw [hmt'] at ht
        refine ⟨os1 ++ os2, ?_, ?_⟩
        · simp [demarshalFields, fieldsMatch, hh, ht, hmh, hmt']
        · intro o hmem
          rcases List.mem_append.mp hmem with hx | hx
          · exact ho1 o hx
          · exact ho2 o hx
    · have hmh' : wireMatches t h = false := by simpa using hmh
      rw [hmh'] at hh
      refine ⟨os1, ?_, ho1⟩
      simp [demarshalFields, fieldsMatch, hh, hmh']
termination_by _ _ s => sizeOf s
end

/-- One extra oracle entry is owed whenever a fragment surrendered to
the out-of-memory recovery: a failed allocation always consumed the
oracle entry that made it fail. -/
def DemRes.oomCost : DemRes → Nat
  | .oomFail => 1
  | _ => 0

/-- As DemRes.oomCost, for sequence results. -/
def DemSeqRes.oomCost : DemSeqRes → Nat
  | .oomFail => 1
  | _ => 0

theorem takeAlloc_len (or : List Bool) :
    (takeAlloc or).2.length ≤ or.length
      ∧ ((takeAlloc or).1 = false → (takeAlloc or).2.length + 1 ≤ or.length) := by
  cases or with
  | nil => simp [takeAlloc]
  | cons b rest => cases b <;> simp [takeAlloc]

mutual
theorem demarshalVal_len : ∀ (parent : String) (t : DBusType) (w : DBusValue)
    (or : List Bool),
    (demarshalVal parent t w or).2.2.length
        + (demarshalVal parent t w or).1.oomCost ≤ or.length
  | parent, t, .byte n, or => by
    cases t <;> simp [demarshalVal, DemRes.oomCost]
  | parent, t, .boolean b, or => by
    cases t <;> simp [demarshalVal, DemRes.oomCost]
  | parent, t, .int16 n, or => by
    cases t <;> simp [demarshalVal, DemRes.oomCost]
  | parent, t, .uint16 n, or => by
    cases t <;> simp [demarshalVal, DemRes.oomCost]
  | parent, t, .int32 n, or => by
    cases t <;> simp [demarshalVal, DemRes.oomCost]
  | parent, t, .uint32 n, or => by
    cases t <;> simp [demarshalVal, DemRes.oomCost]
  | parent, t, .int64 n, or => by
    cases t <;> simp [demarshalVal, DemRes.oomCost]
  | parent, t, .uint64 n, or => by
    cases t <;> simp [demarshalVal, DemRes.oomCost]
  | parent, t, .double b, or => by
    cases t <;> simp [demarshalVal, DemRes.oomCost]
  | parent, t, .string s, or => by
    cases t
    case string =>
      cases or with
      | nil => simp [demarshalVal, takeAlloc, DemRes.oomCost]
      | cons b rest =>
        cases b <;> simp [demarshalVal, takeAlloc, DemRes.oomCost]
    all_goals simp [demarshalVal, DemRes.oomCost]
  | parent, t, .objectPath s, or => by
    cases t
    case objectPath =>
      cases or with
      | nil => simp [demarshalVal, takeAlloc, DemRes.oomCost]
      | cons b rest =>
        cases b <;> simp [demarshalVal, takeAlloc, DemRes.oomCost]
    all_goals simp [demarshalVal, DemRes.oomCost]
  | parent, t, .signature s, or => by
    cases t
    case signature =>
      cases or with
      | nil => simp [demarshalVal, takeAlloc, DemRes.oomCost]
      | cons b rest =>
        cases b <;> simp [demarshalVal, takeAlloc, DemRes.oomCost]
    all_goals simp [demarshalVal, DemRes.oomCost]
  | parent, t, .unixFD n, or => by
    cases t <;> simp [demarshalVal, DemRes.oomCost]
  | parent, t, .array t2 elems, or => by
    cases t
    case array te =>
      simp only [demarshalVal]
      rcases h1 : takeAlloc or with ⟨ok1, or1⟩
      have hta := takeAlloc_len or
      rw [h1] at hta
      try rw [h1]
      cases ok1 with
      | false =>
        try simp only [Bool.not_false, if_true]
        simpa [DemRes.oomCost] using hta.2 rfl
      | true =>
        try simp only [Bool.not_true, Bool.false_eq_true, if_false]
        have ih := demarshalElems_len parent te elems or1
        rcases h2 : demarshalElems parent te elems or1 with ⟨res, os, or2⟩
        rw [h2] at ih
        try rw [h2]
        cases res <;> simp_all [DemRes.oomCost, DemSeqRes.oomCost] <;> try omega
    all_goals simp [demarshalVal, DemRes.oomCost]
  | parent, t, .structV fields, or => by
    cases t
    case structT ts =>
      have ih := demarshalFields_len parent ts fields or
      simp only [demarshalVal]
      rcases h2 : demarshalFields parent ts fields or with ⟨res, os, or2⟩
      rw [h2] at ih
      try rw [h2]
      cases res <;> simp_all [DemRes.oomCost, DemSeqRes.oomCost] <;> try omega
    all_goals simp [demarshalVal, DemRes.oomCost]
  | parent, t, .dictEntry k v, or => by
    cases t
    case dictEntry kt vt =>
      have ih1 := demarshalVal_len parent kt k or
      simp only [demarshalVal]
      rcases h1 : demarshalVal parent kt k or with ⟨res1, os1, or1⟩
      rw [h1] at ih1
      try rw [h1]
      cases res1 with
      | ok kw =>
        have ih2 := demarshalVal_len parent vt v or1
        rcases h2 : demarshalVal parent vt v or1 with ⟨res2, os2, or2⟩
        rw [h2] at ih2
        try rw [h2]
        cases res2 <;> simp_all [DemRes.oomCost] <;> try omega
      | typeErr => simp_all [DemRes.oomCost]
      | oomFail => simp_all [DemRes.oomCost]
    all_goals simp [demarshalVal, DemRes.oomCost]
  | parent, t, .variant inner, or => by
    cases t
    case variant =>
      have ih := demarshalVal_len parent inner.typeOf inner or
      simp only [demarshalVal]
      rcases h1 : demarshalVal parent inner.typeOf inner or with ⟨res, os, or1⟩
      rw [h1] at ih
      try rw [h1]
      cases res <;> simp_all [DemRes.oomCost] <;> try omega
    all_goals simp [demarshalVal, DemRes.oomCost]
termination_by _ _ w _ => sizeOf w

theorem demarshalElems_len : ∀ (parent : String) (t : DBusType) (s : DBusSeq)
    (or : List Bool),
    (demarshalElems parent t s or).2.2.length
        + (demarshalElems parent t s or).1.oomCost ≤ or.length
  | parent, t, .nil, or => by simp [demarshalElems, DemSeqRes.oomCost]
  | parent, t, .cons h tl, or => by
    have ih1 := demarshalVal_len parent t h or
    simp only [demarshalElems]
    rcases h1 : demarshalVal parent t h or with ⟨res1, os1, or1⟩
    rw [h1] at ih1
    try rw [h1]
    cases res1 with
    | ok w =>
      have ih2 := demarshalElems_len parent t tl or1
      rcases h2 : demarshalElems parent t tl or1 with ⟨res2, os2, or2⟩
      rw [h2] at ih2
      try rw [h2]
      cases res2 <;> simp_all [DemRes.oomCost, DemSeqRes.oomCost] <;> try omega
    | typeErr => simp_all [DemRes.oomCost, DemSeqRes.oomCost]
    | oomFail => simp_all [DemRes.oomCost, DemSeqRes.oomCost]
termination_by _ _ s _ => sizeOf s

theorem demarshalFields_len : ∀ (parent : String) (ts : List DBusType)
    (s : DBusSeq) (or : List Bool),
    (demarshalFields parent ts s or).2.2.length
        + (demarshalFields parent ts s or).1.oomCost ≤ or.length
  | parent, [], .nil, or => by simp [demarshalFields, DemSeqRes.oomCost]
  | parent, [], .cons h tl, or => by simp [demarshalFields, DemSeqRes.oomCost]
  | parent, t :: ts, .nil, or => by simp [demarshalFields, DemSeqRes.oomCost]
  | parent, t :: ts, .cons h tl, or => by
    have ih1 := demarshalVal_len parent t h or
    simp only [demarshalFields]
    rcases h1 : demarshalVal parent t h or with ⟨res1, os1, or1⟩
    rw [h1] at ih1
    try rw [h1]
    cases res1 with
    | ok w =>
      have ih2 := demarshalFields_len parent ts tl or1
      rcases h2 : demarshalFields parent ts tl or1 with ⟨res2, os2, or2⟩
      rw [h2] at ih2
      try rw [h2]
      cases res2 <;> simp_all [DemRes.oomCost, DemSeqRes.oomCost] <;> try omega
    | typeErr => simp_all [DemRes.oomCost, DemSeqRes.oomCost]
    | oomFail => simp_all [DemRes.oomCost, DemSeqRes.oomCost]
termination_by _ _ s _ => sizeOf s
end

/-- Errors raised by the emitted client code through the nih error
mechanism: a local no-memory error, a D-Bus remote error carrying name
and message (nih_dbus_error_raise), or the NIH_DBUS_INVALID_ARGS domain
error. -/
inductive RaisedError where
  | noMemory
  | dbusError (name message : String)
  | invalidArgs
deriving DecidableEq

/-- Errors raised by the emitted server-side setter stub: the standard
D-Bus invalid-arguments error whose message text names the property
(nih_dbus_error_raise_printf with DBUS_ERROR_INVALID_ARGS), or the
no-memory error. -/
inductive ServerRaised where
  | invalidArgs (propertyName : String)
  | noMemory
deriving DecidableEq

/-- The standard D-Bus no-memory error name, DBUS_ERROR_NO_MEMORY. -/
def dbusErrorNoMemoryName : String := "org.freedesktop.DBus.Error.NoMemory"

/-- Outcome of the blocking dbus_connection_send_with_reply_and_block
call: an error reply with its name and message, or a successful reply
carrying a list of arguments. -/
inductive SendOutcome where
  | error (name message : String)
  | reply (args : List DBusValue)

/-- Whether a demarshalling fragment surrendered to the out-of-memory
recovery. -/
def DemRes.isOom : DemRes → Bool
  | .oomFail => true
  | _ => false

/-- Result of the retry loop of the emitted client property getter: a
normal exit carrying the final value of the output slot, the owners of
the demarshalling allocations and the remaining oracle, or the return
with the invalid-arguments error on wire type mismatch. -/
inductive LoopOut where
  | done (slot : Option DBusValue) (owners : List String) (orRest : List Bool)
  | typeError

/-- The do-while retry loop of the code emitted by
property_proxy_get_sync_function (part_001 lines 1250-1260, with the
recovery fragments of lines 1176-1187): run the demarshalling fragment
on the variant contents; on allocation failure the out-of-memory
fragment stores NULL into the output slot and jumps to the end of the
loop body, whose condition (the output slot is still NULL) retries it;
on wire type mismatch the fragment consumes the reply and returns the
NIH_DBUS_INVALID_ARGS error; on success the output slot receives the
demarshalled value, the loop condition fails and the loop exits. -/
def getLoop (parent : String) (τ : DBusType) (inner : DBusValue)
    (or : List Bool) : LoopOut :=
  let r := demarshalVal parent τ inner or
  if _hoo : r.1.isOom then getLoop parent τ inner r.2.2
  else
    match r.1, r.2 with
    | .ok w, (os, orRest) => .done (some w) os orRest
    | _, _ => .typeError
termination_by or.length
decreasing_by
  have hoom : (demarshalVal parent τ inner or).1.isOom = true := _hoo
  have hlen := demarshalVal_len parent τ inner or
  rcases hq : demarshalVal parent τ inner or with ⟨res, os, orx⟩
  rw [hq] at hoom hlen
  cases res <;> simp [DemRes.isOom] at hoom
  simp [DemRes.oomCost] at hlen
  show orx.length < or.length
  omega

/-- Observable outcome of one execution of the server-side property get
stub: return value, container events on the reply iterator, and whether
the user's handler was called. -/
structure ObjectGetRun where
  ret : Int
  events : List Ev
  handlerCalled : Bool
deriving DecidableEq

/-- The code emitted by property_object_get_function (part_001 lines
511-655), run on a reply iterator.  The handler is called first (its
outcome is a parameter: none for failure, some v for the value it
produced); then a variant container is opened on the message iterator, a
failing open returning without any container open; the value is
marshalled into it with the recovery fragment of lines 514-516, which
closes the variant; finally the variant is closed, a failing close
returning failure. -/
def object_get_run (handlerResult : Option DBusValue) (or : List Bool) :
    ObjectGetRun :=
  match handlerResult with
  | none => { ret := -1, events := [], handlerCalled := true }
  | some v =>
    match takeAlloc or with
    | (ok1, or1) =>
      if !ok1 then { ret := -1, events := [], handlerCalled := true }
      else
        match marshalVal [Ev.closec] v or1 with
        | (evs, or2, ok2) =>
          if !ok2 then
            { ret := -1, events := Ev.openc :: evs, handlerCalled := true }
          else
            match takeAlloc or2 with
            | (ok3, _) =>
              { ret := if ok3 then 0 else -1,
                events := Ev.openc :: (evs ++ [Ev.closec]),
                handlerCalled := true }

/-- Observable outcome of one execution of the server-side property set
stub: return value, raised error, the value the user's setter was called
with (none when it was not called), and container events (the emitted
code reads the variant via dbus_message_iter_recurse and never opens or
closes a container). -/
structure ObjectSetRun where
  ret : Int
  raised : Option ServerRaised
  handlerArg : Option DBusValue
  events : List Ev

/-- The code emitted by property_object_set_function (part_001 lines
758-924), run on the argument list of the inbound message: demand that
the first argument exists and is a variant, recurse into it and
demarshal the property type with parent message, out-of-memory recovery
raising no-memory and type-error recovery raising the invalid-arguments
error naming the property (lines 774-786); then step past the variant
and demand no further arguments; only then call the user's setter with
the demarshalled value, a negative handler return propagating as
failure with no error raised by the stub itself. -/
def object_set_run (τ : DBusType) (propName : String)
    (args : List DBusValue) (handlerOk : Bool) (or : List Bool) :
    ObjectSetRun :=
  match args with
  | DBusValue.variant inner :: rest =>
    (match demarshalVal "message" τ inner or with
     | (.typeErr, _, _) =>
       { ret := -1, raised := some (.invalidArgs propName),
         handlerArg := none, events := [] }
     | (.oomFail, _, _) =>
       { ret := -1, raised := some .noMemory, handlerArg := none,
         events := [] }
     | (.ok w, _, _) =>
       if rest.isEmpty then
         if handlerOk then
           { ret := 0, raised := none, handlerArg := some w, events := [] }
         else
           { ret := -1, raised := none, handlerArg := some w, events := [] }
       else
         { ret := -1, raised := some (.invalidArgs propName),
           handlerArg := none, events := [] })
  | _ =>
    { ret := -1, raised := some (.invalidArgs propName), handlerArg := none,
      events := [] }

/-- Observable outcome of one execution of the client synchronous
property getter: return value, raised error, final value of the
caller-supplied output slot (initially NULL), owners of the
demarshalling allocations, container events (the emitted code reads the
variant via recurse and opens no container), and whether the method
call message was released. -/
structure ProxyGetRun where
  ret : Int
  raised : Option RaisedError
  slot : Option DBusValue
  owners : List String
  events : List Ev
  methodCallFreed : Bool

/-- The code emitted by property_proxy_get_sync_function (part_001
lines 1092-1260), run against a given send outcome.  Three allocating
steps precede the send: creating the method call and appending the
interface and property name strings, each raising no-memory on failure.
A send error frees the method call and raises no-memory when the error
bears the standard D-Bus no-memory name, otherwise a D-Bus error
carrying the remote name and message.  On a reply the method call is
freed, the first argument must be a variant and must be the only
argument, otherwise the invalid-arguments error is raised; then the
retry loop demarshals the variant contents with parent being the
caller-supplied parent argument and stores the result into the output
slot. -/
def proxy_get_run (parent : String) (τ : DBusType) (send : SendOutcome)
    (or : List Bool) : ProxyGetRun :=
  match takeAlloc or with
  | (a1, or1) =>
    if !a1 then
      { ret := -1, raised := some .noMemory, slot := none, owners := [],
        events := [], methodCallFreed := false }
    else
      match takeAlloc or1 with
      | (a2, or2) =>
        if !a2 then
          { ret := -1, raised := some .noMemory, slot := none, owners := [],
            events := [], methodCallFreed := false }
        else
          match takeAlloc or2 with
          | (a3, or3) =>
            if !a3 then
              { ret := -1, raised := some .noMemory, slot := none,
                owners := [], events := [], methodCallFreed := false }
            else
              match send with
              | .error n m =>
                { ret := -1,
                  raised := some (if n = dbusErrorNoMemoryName
                    then RaisedError.noMemory else RaisedError.dbusError n m),
                  slot := none, owners := [], events := [],
                  methodCallFreed := true }
              | .reply args =>
                match args with
                | DBusValue.variant inner :: rest =>
                  if !rest.isEmpty then
                    { ret := -1, raised := some .invalidArgs, slot := none,
                      owners := [], events := [], methodCallFreed := true }
                  else
                    (match getLoop parent τ inner or3 with
                     | .done slot os _ =>
                       { ret := 0, raised := none, slot := slot,
                         owners := os, events := [], methodCallFreed := true }
                     | .typeError =>
                       { ret := -1, raised := some .invalidArgs,
                         slot := none, owners := [], events := [],
                         methodCallFreed := true })
                | _ =>
                  { ret := -1, raised := some .invalidArgs, slot := none,
                    owners := [], events := [], methodCallFreed := true }

/-- Observable outcome of one execution of the client synchronous
property setter: return value, raised error, container events and
whether the method call message was released. -/
structure ProxySetRun where
  ret : Int
  raised : Option RaisedError
  events : List Ev
  methodCallFreed : Bool

/-- The code emitted by property_proxy_set_sync_function (part_001
lines 1466-1579), run against a given send outcome.  Four allocating
steps precede the marshalling: creating the method call, appending the
interface and property name strings, and opening the variant container
(all four raise no-memory on failure without freeing the method call,
a failed open leaving no container open); the value is marshalled into
the variant with the recovery fragment of lines 1501-1504, which closes
the variant, frees the method call and raises no-memory; the close of
the variant frees the method call and raises no-memory on failure.  A
send error is translated exactly as in the getter; a reply frees the
method call and must carry no arguments, otherwise the
invalid-arguments error is raised. -/
def proxy_set_run (v : DBusValue) (send : SendOutcome) (or : List Bool) :
    ProxySetRun :=
  match takeAlloc or with
  | (a1, or1) =>
    if !a1 then
      { ret := -1, raised := some .noMemory, events := [],
        methodCallFreed := false }
    else
      match takeAlloc or1 with
      | (a2, or2) =>
        if !a2 then
          { ret := -1, raised := some .noMemory, events := [],
            methodCallFreed := false }
        else
          match takeAlloc or2 with
          | (a3, or3) =>
            if !a3 then
              { ret := -1, raised := some .noMemory, events := [],
                methodCallFreed := false }
            else
              match takeAlloc or3 with
              | (a4, or4) =>
                if !a4 then
                  { ret := -1, raised := some .noMemory, events := [],
                    methodCallFreed := false }
                else
                  match marshalVal [Ev.closec] v or4 with
                  | (evs, or5, ok5) =>
                    if !ok5 then
                      { ret := -1, raised := some .noMemory,
                        events := Ev.openc :: evs, methodCallFreed := true }
                    else
                      match takeAlloc or5 with
                      | (a6, _) =>
                        if !a6 then
                          { ret := -1, raised := some .noMemory,
                            events := Ev.openc :: (evs ++ [Ev.closec]),
                            methodCallFreed := true }
                        else
                          match send with
                          | .error n m =>
                            { ret := -1,
                              raised := some (if n = dbusErrorNoMemoryName
                                then RaisedError.noMemory
                                else RaisedError.dbusError n m),
                              events := Ev.openc :: (evs ++ [Ev.closec]),
                              methodCallFreed := true }
                          | .reply args =>
                            if args.isEmpty then
                              { ret := 0, raised := none,
                                events := Ev.openc :: (evs ++ [Ev.closec]),
                                methodCallFreed := true }
                            else
                              { ret := -1, raised := some .invalidArgs,
                                events := Ev.openc :: (evs ++ [Ev.closec]),
                                methodCallFreed := true }

theorem getLoop_oom (parent : String) (τ : DBusType) (inner : DBusValue)
    (or : List Bool) (os : List String) (or1 : List Bool)
    (h : demarshalVal parent τ inner or = (DemRes.oomFail, os, or1)) :
    getLoop parent τ inner or = getLoop parent τ inner or1 := by
  rw [getLoop.eq_def]
  simp [h, DemRes.isOom]

theorem getLoop_ok (parent : String) (τ : DBusType) (inner : DBusValue)
    (or : List Bool) (w : DBusValue) (os : List String) (or1 : List Bool)
    (h : demarshalVal parent τ inner or = (DemRes.ok w, os, or1)) :
    getLoop parent τ inner or = LoopOut.done (some w) os or1 := by
  rw [getLoop.eq_def]
  simp [h, DemRes.isOom]

theorem getLoop_typeErr (parent : String) (τ : DBusType) (inner : DBusValue)
    (or : List Bool) (os : List String) (or1 : List Bool)
    (h : demarshalVal parent τ inner or = (DemRes.typeErr, os, or1)) :
    getLoop parent τ inner or = LoopOut.typeError := by
  rw [getLoop.eq_def]
  simp [h, DemRes.isOom]

theorem getLoop_done_some : ∀ (parent : String) (τ : DBusType)
    (inner : DBusValue) (or : List Bool) (slot : Option DBusValue)
    (os : List String) (or2 : List Bool),
    getLoop parent τ inner or = LoopOut.done slot os or2 → slot ≠ none
  | parent, τ, inner, or, slot, os, or2 => by
    intro hdone
    rcases hq : demarshalVal parent τ inner or with ⟨res, osx, orx⟩
    cases res with
    | ok w =>
      rw [getLoop_ok parent τ inner or w osx orx hq] at hdone
      simp only [LoopOut.done.injEq] at hdone
      rw [← hdone.1]
      simp
    | typeErr =>
      rw [getLoop_typeErr parent τ inner or osx orx hq] at hdone
      simp at hdone
    | oomFail =>
      rw [getLoop_oom parent τ inner or osx orx hq] at hdone
      exact getLoop_done_some parent τ inner orx slot os or2 hdone
termination_by _ _ _ or _ _ _ => or.length
decreasing_by
  have hlen := demarshalVal_len parent τ inner or
  rw [hq] at hlen
  simp [DemRes.oomCost] at hlen
  omega

mutual
theorem marshalVal_nil_ok : ∀ (oomEvs : List Ev) (v : DBusValue),
    ∃ evs, marshalVal oomEvs v [] = (evs, [], true)
  | oomEvs, .byte _ => ⟨[], by simp [marshalVal, marshalBasicStep, takeAlloc]⟩
  | oomEvs, .boolean _ => ⟨[], by simp [marshalVal, marshalBasicStep, takeAlloc]⟩
  | oomEvs, .int16 _ => ⟨[], by simp [marshalVal, marshalBasicStep, takeAlloc]⟩
  | oomEvs, .uint16 _ => ⟨[], by simp [marshalVal, marshalBasicStep, takeAlloc]⟩
  | oomEvs, .int32 _ => ⟨[], by simp [marshalVal, marshalBasicStep, takeAlloc]⟩
  | oomEvs, .uint32 _ => ⟨[], by simp [marshalVal, marshalBasicStep, takeAlloc]⟩
  | oomEvs, .int64 _ => ⟨[], by simp [marshalVal, marshalBasicStep, takeAlloc]⟩
  | oomEvs, .uint64 _ => ⟨[], by simp [marshalVal, marshalBasicStep, takeAlloc]⟩
  | oomEvs, .double _ => ⟨[], by simp [marshalVal, marshalBasicStep, takeAlloc]⟩
  | oomEvs, .string _ => ⟨[], by simp [marshalVal, marshalBasicStep, takeAlloc]⟩
  | oomEvs, .objectPath _ => ⟨[], by simp [marshalVal, marshalBasicStep, takeAlloc]⟩
  | oomEvs, .signature _ => ⟨[], by simp [marshalVal, marshalBasicStep, takeAlloc]⟩
  | oomEvs, .unixFD _ => ⟨[], by simp [marshalVal, marshalBasicStep, takeAlloc]⟩
  | oomEvs, .array t elems => by
    obtain ⟨evs, h⟩ := marshalSeq_nil_ok (Ev.closec :: oomEvs) elems
    exact ⟨Ev.openc :: (evs ++ [Ev.closec]),
      by simp [marshalVal, takeAlloc, h, containerFinish]⟩
  | oomEvs, .structV fields => by
    obtain ⟨evs, h⟩ := marshalSeq_nil_ok (Ev.closec :: oomEvs) fields
    exact ⟨Ev.openc :: (evs ++ [Ev.closec]),
      by simp [marshalVal, takeAlloc, h, containerFinish]⟩
  | oomEvs, .dictEntry k v => by
    obtain ⟨evs, h⟩ := marshalPair_nil_ok (Ev.closec :: oomEvs) k v
    exact ⟨Ev.openc :: (evs ++ [Ev.closec]),
      by simp [marshalVal, takeAlloc, h, containerFinish]⟩
  | oomEvs, .variant inner => by
    obtain ⟨evs, h⟩ := marshalVal_nil_ok (Ev.closec :: oomEvs) inner
    exact ⟨Ev.openc :: (evs ++ [Ev.closec]),
      by simp [marshalVal, takeAlloc, h, containerFinish]⟩
termination_by _ v => (sizeOf v, 1)

theorem marshalPair_nil_ok : ∀ (oomEvs : List Ev) (k v : DBusValue),
    ∃ evs, marshalPair oomEvs k v [] = (evs, [], true)
  | oomEvs, k, v => by
    obtain ⟨evs1, h1⟩ := marshalVal_nil_ok oomEvs k
    obtain ⟨evs2, h2⟩ := marshalVal_nil_ok oomEvs v
    exact ⟨evs1 ++ evs2, by simp [marshalPair, h1, h2]⟩
termination_by _ k v => (1 + sizeOf k + sizeOf v, 0)

theorem marshalSeq_nil_ok : ∀ (oomEvs : List Ev) (s : DBusSeq),
    ∃ evs, marshalSeq oomEvs s [] = (evs, [], true)
  | _, .nil => ⟨[], by simp [marshalSeq]⟩
  | oomEvs, .cons v vs => by
    obtain ⟨evs1, h1⟩ := marshalVal_nil_ok oomEvs v
    obtain ⟨evs2, h2⟩ := marshalSeq_nil_ok oomEvs vs
    exact ⟨evs1 ++ evs2, by simp [marshalSeq, h1, h2]⟩
termination_by _ s => (sizeOf s, 0)
end

theorem object_set_run_events (τ : DBusType) (propName : String)
    (args : List DBusValue) (handlerOk : Bool) (or : List Bool) :
    (object_set_run τ propName args handlerOk or).events = [] := by
  unfold object_set_run
  (repeat' split) <;> rfl

theorem proxy_get_run_events (parent : String) (τ : DBusType)
    (send : SendOutcome) (or : List Bool) :
    (proxy_get_run parent τ send or).events = [] := by
  unfold proxy_get_run
  (repeat' split) <;> rfl

theorem object_get_run_net (handlerResult : Option DBusValue)
    (or : List Bool) :
    net (object_get_run handlerResult or).events = 0 := by
  cases handlerResult with
  | none => simp [object_get_run, net_nil]
  | some v =>
    simp only [object_get_run]
    rcases h1 : takeAlloc or with ⟨ok1, or1⟩
    try rw [h1]
    cases ok1 with
    | false => simp [net_nil]
    | true =>
      simp only [Bool.not_true, Bool.false_eq_true, if_false]
      have hm := marshalVal_net [Ev.closec] v or1
      rcases h2 : marshalVal [Ev.closec] v or1 with ⟨evs, or2, ok2⟩
      rw [h2] at hm
      try rw [h2]
      cases ok2 with
      | false =>
        simp only [Bool.false_eq_true, if_false] at hm
        simp only [Bool.not_false, if_true]
        rw [net_open_cons, hm, net_close_cons, net_nil]
        ring
      | true =>
        simp only [if_true] at hm
        simp only [Bool.not_true, Bool.false_eq_true, if_false]
        rcases h3 : takeAlloc or2 with ⟨ok3, or3⟩
        try rw [h3]
        have : net (Ev.openc :: (evs ++ [Ev.closec])) = 0 := by
          rw [net_open_cons, net_append, hm, net_close_cons, net_nil]
          ring
        simpa using this

theorem proxy_set_run_net (v : DBusValue) (send : SendOutcome)
    (or : List Bool) :
    net (proxy_set_run v send or).events = 0 := by
  simp only [proxy_set_run]
  rcases h1 : takeAlloc or with ⟨a1, or1⟩
  try rw [h1]
  cases a1 with
  | false => simp [net_nil]
  | true =>
    simp only [Bool.not_true, Bool.false_eq_true, if_false]
    rcases h2 : takeAlloc or1 with ⟨a2, or2⟩
    try rw [h2]
    cases a2 with
    | false => simp [net_nil]
    | true =>
      simp only [Bool.not_true, Bool.false_eq_true, if_false]
      rcases h3 : takeAlloc or2 with ⟨a3, or3⟩
      try rw [h3]
      cases a3 with
      | false => simp [net_nil]
      | true =>
        simp only [Bool.not_true, Bool.false_eq_true, if_false]
        rcases h4 : takeAlloc or3 with ⟨a4, or4⟩
        try rw [h4]
        cases a4 with
        | false => simp [net_nil]
        | true =>
          simp only [Bool.not_true, Bool.false_eq_true, if_false]
          have hm := marshalVal_net [Ev.closec] v or4
          rcases h5 : marshalVal [Ev.closec] v or4 with ⟨evs, or5, ok5⟩
          rw [h5] at hm
          try rw [h5]
          cases ok5 with
          | false =>
            simp only [Bool.false_eq_true, if_false] at hm
            simp only [Bool.not_false, if_true]
            rw [net_open_cons, hm, net_close_cons, net_nil]
            ring
          | true =>
            simp only [if_true] at hm
            simp only [Bool.not_true, Bool.false_eq_true, if_false]
            have hev : net (Ev.openc :: (evs ++ [Ev.closec])) = 0 := by
              rw [net_open_cons, net_append, hm, net_close_cons, net_nil]
              ring
            rcases h6 : takeAlloc or5 with ⟨a6, or6⟩
            try rw [h6]
            cases a6 with
            | false => simpa using hev
            | true =>
              simp only [Bool.not_true, Bool.false_eq_true, if_false]
              cases send with
              | error n m => simpa using hev
              | reply args =>
                by_cases he : args.isEmpty <;> simp [he] <;> exact hev

/-- C1: on every execution path of the code emitted by the four
property stub generators — success, out-of-memory recovery, wire type
mismatch — the number of successfully opened containers equals the
number of close_container calls on the path's trace, so the net number
of open and close calls is zero and no open iterator is leaked.  The
server-side set stub and the client getter read their variant via
dbus_message_iter_recurse and make no container calls at all. -/
theorem stub_containers_balanced (handlerResult : Option DBusValue)
    (τ : DBusType) (propName parent : String) (args : List DBusValue)
    (handlerOk : Bool) (v : DBusValue) (send : SendOutcome)
    (or : List Bool) :
    countOpen (object_get_run handlerResult or).events
        = countClose (object_get_run handlerResult or).events ∧
    countOpen (object_set_run τ propName args handlerOk or).events
        = countClose (object_set_run τ propName args handlerOk or).events ∧
    countOpen (proxy_get_run parent τ send or).events
        = countClose (proxy_get_run parent τ send or).events ∧
    countOpen (proxy_set_run v send or).events
        = countClose (proxy_set_run v send or).events := by
  refine ⟨?_, ?_, ?_, ?_⟩
  · exact (net_zero_iff _).mp (object_get_run_net handlerResult or)
  · rw [object_set_run_events]
    rfl
  · rw [proxy_get_run_events]
    rfl
  · exact (net_zero_iff _).mp (proxy_set_run_net v send or)

/-- C4: in both emitted client stubs, when the blocking send returns an
error, an error named exactly DBUS_ERROR_NO_MEMORY raises the local
no-memory error and any other name raises a D-Bus domain error carrying
the remote name and message; in both cases the stub frees the method
call and returns failure.  Stated on runs whose preceding allocations
succeed (empty oracle). -/
theorem send_error_translation (parent : String) (τ : DBusType)
    (v : DBusValue) (n m : String) :
    (proxy_get_run parent τ (SendOutcome.error n m) []).ret = -1 ∧
    (proxy_get_run parent τ (SendOutcome.error n m) []).methodCallFreed = true ∧
    (proxy_get_run parent τ (SendOutcome.error n m) []).raised
      = some (if n = dbusErrorNoMemoryName then RaisedError.noMemory
              else RaisedError.dbusError n m) ∧
    (proxy_set_run v (SendOutcome.error n m) []).ret = -1 ∧
    (proxy_set_run v (SendOutcome.error n m) []).methodCallFreed = true ∧
    (proxy_set_run v (SendOutcome.error n m) []).raised
      = some (if n = dbusErrorNoMemoryName then RaisedError.noMemory
              else RaisedError.dbusError n m) := by
  obtain ⟨evs, hm⟩ := marshalVal_nil_ok [Ev.closec] v
  refine ⟨?_, ?_, ?_, ?_, ?_, ?_⟩ <;>
    simp [proxy_get_run, proxy_set_run, takeAlloc, hm]

/-- C7: the demarshalling of the reply value in the emitted client
getter sits in a loop retried on allocation failure: when the
demarshalling step surrenders to the out-of-memory recovery (which
stores NULL into the output slot and jumps to the end of the loop body),
the loop runs the body again on the remaining oracle; and a normal loop
exit always carries a non-null output slot, so the loop exits exactly
when the output slot named value is non-null. -/
theorem get_sync_retry_loop (parent : String) (τ : DBusType)
    (inner : DBusValue) (or : List Bool) :
    (∀ os or1, demarshalVal parent τ inner or = (DemRes.oomFail, os, or1) →
        getLoop parent τ inner or = getLoop parent τ inner or1) ∧
    (∀ slot os or2, getLoop parent τ inner or = LoopOut.done slot os or2 →
        slot ≠ none) :=
  ⟨fun os or1 h => getLoop_oom parent τ inner or os or1 h,
   fun slot os or2 h => getLoop_done_some parent τ inner or slot os or2 h⟩

/-- Witness for C7 at a concrete input: demarshalling a string against a
single failing allocation surrenders to the out-of-memory recovery, and
the loop on that oracle is the loop on the remaining (empty) oracle. -/
theorem get_sync_retry_loop_witness :
    demarshalVal "parent" DBusType.string (DBusValue.string "dog") [false]
        = (DemRes.oomFail, [], []) ∧
    getLoop "parent" DBusType.string (DBusValue.string "dog") [false]
      = getLoop "parent" DBusType.string (DBusValue.string "dog") [] :=
  ⟨by simp [demarshalVal, takeAlloc],
   (get_sync_retry_loop "parent" DBusType.string (DBusValue.string "dog")
       [false]).1 [] [] (by simp [demarshalVal, takeAlloc])⟩

/-- C2: the emitted client getter on a successful reply, with
allocations succeeding: a reply that does not carry exactly one
argument being a variant raises the invalid-arguments domain error and
fails with the output slot left NULL; on a reply carrying exactly one
variant the contents are demarshalled at the property's signature with
every allocation parented to the caller-supplied parent argument and
the result is stored into the caller-supplied output slot; contents not
matching the signature raise invalid-arguments and fail. -/
theorem proxy_get_reply_spec (parent : String) (τ : DBusType)
    (args : List DBusValue) (inner : DBusValue) :
    ((¬ ∃ w, args = [DBusValue.variant w]) →
        proxy_get_run parent τ (SendOutcome.reply args) [] =
          { ret := -1, raised := some RaisedError.invalidArgs, slot := none,
            owners := [], events := [], methodCallFreed := true }) ∧
    (wireMatches τ inner = true →
        ∃ os, proxy_get_run parent τ
              (SendOutcome.reply [DBusValue.variant inner]) [] =
            { ret := 0, raised := none, slot := some inner, owners := os,
              events := [], methodCallFreed := true }
          ∧ ∀ o ∈ os, o = parent) ∧
    (wireMatches τ inner = false →
        proxy_get_run parent τ
            (SendOutcome.reply [DBusValue.variant inner]) [] =
          { ret := -1, raised := some RaisedError.invalidArgs, slot := none,
            owners := [], events := [], methodCallFreed := true }) := by
  refine ⟨?_, ?_, ?_⟩
  · intro hshape
    cases args with
    | nil => simp [proxy_get_run, takeAlloc]
    | cons hd rest =>
      cases hd
      case variant w =>
        have hne : rest ≠ [] := by
          rintro rfl
          exact hshape ⟨w, rfl⟩
        have hie : rest.isEmpty = false := by
          cases rest with
          | nil => exact absurd rfl hne
          | cons a b => rfl
        simp [proxy_get_run, takeAlloc, hie]
      all_goals simp [proxy_get_run, takeAlloc]
  · intro hm
    obtain ⟨os, hd, ho⟩ := demarshalVal_nil parent τ inner
    rw [hm] at hd
    simp at hd
    refine ⟨os, ?_, ho⟩
    have hl := getLoop_ok parent τ inner [] inner os [] hd
    simp [proxy_get_run, takeAlloc, hl]
  · intro hm
    obtain ⟨os, hd, ho⟩ := demarshalVal_nil parent τ inner
    rw [hm] at hd
    simp at hd
    have hl := getLoop_typeErr parent τ inner [] os [] hd
    simp [proxy_get_run, takeAlloc, hl]

/-- Witness for C2 at a concrete input: a reply carrying a variant of a
string for a string property stores the string into the output slot,
all allocations parented to the caller's parent. -/
theorem proxy_get_reply_spec_witness :
    ∃ os, proxy_get_run "parent" DBusType.string
          (SendOutcome.reply
            [DBusValue.variant (DBusValue.string "dog and doughnut")]) [] =
        { ret := 0, raised := none,
          slot := some (DBusValue.string "dog and doughnut"), owners := os,
          events := [], methodCallFreed := true }
      ∧ ∀ o ∈ os, o = "parent" :=
  (proxy_get_reply_spec "parent" DBusType.string
      [DBusValue.variant (DBusValue.string "dog and doughnut")]
      (DBusValue.string "dog and doughnut")).2.1 (by simp [wireMatches])

/-- C3: the emitted server setter stub demands exactly one argument
which must be a variant: a message whose first argument is missing or
not a variant, a variant whose contents do not match the property's
signature, or a trailing argument each raise the standard D-Bus
invalid-arguments error naming the property and fail without calling
the user's setter; the setter is invoked, with the demarshalled inner
value, exactly when all checks pass; and whenever the setter was called
the message carried exactly one variant argument. -/
theorem object_set_spec (τ : DBusType) (propName : String)
    (args : List DBusValue) (inner : DBusValue) (rest : List DBusValue)
    (handlerOk : Bool) (or : List Bool) :
    ((¬ ∃ w r, args = DBusValue.variant w :: r) →
        object_set_run τ propName args handlerOk or =
          { ret := -1, raised := some (ServerRaised.invalidArgs propName),
            handlerArg := none, events := [] }) ∧
    (wireMatches τ inner = false →
        object_set_run τ propName (DBusValue.variant inner :: rest) handlerOk []
          = { ret := -1, raised := some (ServerRaised.invalidArgs propName),
              handlerArg := none, events := [] }) ∧
    (wireMatches τ inner = true → rest ≠ [] →
        object_set_run τ propName (DBusValue.variant inner :: rest) handlerOk []
          = { ret := -1, raised := some (ServerRaised.invalidArgs propName),
              handlerArg := none, events := [] }) ∧
    (wireMatches τ inner = true →
        object_set_run τ propName [DBusValue.variant inner] handlerOk []
          = { ret := if handlerOk then 0 else -1, raised := none,
              handlerArg := some inner, events := [] }) ∧
    (∀ w, (object_set_run τ propName args handlerOk or).handlerArg = some w →
        ∃ w2, args = [DBusValue.variant w2]) := by
  refine ⟨?_, ?_, ?_, ?_, ?_⟩
  · intro hshape
    cases args with
    | nil => simp [object_set_run]
    | cons hd rest2 =>
      cases hd
      case variant w => exact absurd ⟨w, rest2, rfl⟩ hshape
      all_goals simp [object_set_run]
  · intro hm
    obtain ⟨os, hd, -⟩ := demarshalVal_nil "message" τ inner
    rw [hm] at hd
    simp at hd
    simp [object_set_run, hd]
  · intro hm hne
    obtain ⟨os, hd, -⟩ := demarshalVal_nil "message" τ inner
    rw [hm] at hd
    simp at hd
    have hie : rest.isEmpty = false := by
      cases rest with
      | nil => exact absurd rfl hne
      | cons a b => rfl
    simp [object_set_run, hd, hie]
  · intro hm
    obtain ⟨os, hd, -⟩ := demarshalVal_nil "message" τ inner
    rw [hm] at hd
    simp at hd
    cases handlerOk <;> simp [object_set_run, hd]
  · intro w hw
    cases args with
    | nil => simp [object_set_run] at hw
    | cons hd rest2 =>
      cases hd
      case variant w2 =>
        rcases hq : demarshalVal "message" τ w2 or with ⟨res, os, orx⟩
        cases res with
        | ok w3 =>
          by_cases hie : rest2.isEmpty
          · have hr : rest2 = [] := by
              cases rest2 with
              | nil => rfl
              | cons a b => simp [List.isEmpty] at hie
            exact ⟨w2, by rw [hr]⟩
          · have hie' : rest2.isEmpty = false := by simpa using hie
            simp [object_set_run, hq, hie'] at hw
        | typeErr => simp [object_set_run, hq] at hw
        | oomFail => simp [object_set_run, hq] at hw
      all_goals simp [object_set_run] at hw

/-- Witness for C3 at the specification's concrete scenario: the set
stub of a string property named Name, presented with a variant
containing a double, raises invalid-arguments naming the property and
does not call the setter. -/
theorem object_set_spec_witness :
    object_set_run DBusType.string "Name"
        [DBusValue.variant (DBusValue.double 0)] true []
      = { ret := -1, raised := some (ServerRaised.invalidArgs "Name"),
          handlerArg := none, events := [] } :=
  (object_set_spec DBusType.string "Name"
      [DBusValue.variant (DBusValue.double 0)] (DBusValue.double 0) [] true
      []).2.1 (by simp [wireMatches])
